import Mathlib

/-!
Formal verification of the JSON-LD 1.1 context-processing and IRI-compaction
core: a shallow embedding of `src/context/processing.rs`,
`src/compaction/iri.rs` and the interfaces they use, together with theorems
settling the specification's claims.

Rust strings are modelled as lists of characters. Every string handled by
this development is ASCII, so Rust byte indices, byte lengths and byte-wise
ordering coincide with character indices, counts and character-wise ordering.
Rust functions that mutate `&mut` arguments are modelled as functions
returning the updated values; fallible functions return an explicit result
type. The recursion between `define`, `expand_iri` and `process_context`
is bounded by an explicit fuel parameter; running out of fuel is reported
by a dedicated result constructor that is distinct from every error of the
source program.
-/

abbrev Str := List Char

def str (s : String) : Str := s.toList

/-- Byte-wise (here: character-wise, all inputs being ASCII) strict
lexicographic order on strings, as used by Rust's `Ord for String`. -/
def lexLt : Str → Str → Bool
  | [], [] => false
  | [], _ :: _ => true
  | _ :: _, [] => false
  | a :: as, b :: bs => if a < b then true else if b < a then false else lexLt as bs

/-- Index of the first occurrence of a character (Rust `str::find`). -/
def firstIdx (s : Str) (c : Char) : Option Nat :=
  s.findIdx? (fun d => d = c)

/-- Index of the last occurrence of a character (Rust `str::rfind`). -/
def lastIdx (s : Str) (c : Char) : Option Nat :=
  match firstIdx s.reverse c with
  | none => none
  | some i => some (s.length - 1 - i)

/-- Association-list lookup returning the first binding of the key. -/
def lookupAssoc {α : Type} (l : List (Str × α)) (k : Str) : Option α :=
  match l with
  | [] => none
  | (k', v) :: rest => if k' = k then some v else lookupAssoc rest k

/-- Association-list insertion replacing an existing binding in place
(`HashMap::insert` up to ordering; only lookup semantics matter). -/
def insertAssoc {α : Type} (l : List (Str × α)) (k : Str) (v : α) : List (Str × α) :=
  match l with
  | [] => [(k, v)]
  | (k', v') :: rest =>
    if k' = k then (k, v) :: rest else (k', v') :: insertAssoc rest k v

/-! ## Keywords and keyword-like strings

Modelled from the spec: the `syntax` module (keyword vocabulary) is not under
`src/`. The spec gives the closed keyword set and the keyword-like rule
(`@` followed by one or more ASCII letters). A keyword is represented by its
string form. -/

def keywordStrings : List Str :=
  [str "@base", str "@container", str "@context", str "@direction", str "@graph",
   str "@id", str "@import", str "@included", str "@index", str "@json",
   str "@language", str "@list", str "@nest", str "@none", str "@prefix",
   str "@propagate", str "@protected", str "@reverse", str "@set", str "@type",
   str "@value", str "@version", str "@vocab"]

def isKeyword (s : Str) : Bool := keywordStrings.contains s

/-- A string has the form of a keyword when it matches `@` followed by one
or more ASCII letters. -/
def isKeywordLike (s : Str) : Bool :=
  match s with
  | '@' :: rest => !rest.isEmpty && rest.all (fun c => c.isAlpha)
  | _ => false

/-! ## The IRI reference library

Modelled from the spec: the IRI/URI reference library (`iref`) is an assumed
external collaborator (spec §1). An IRI is kept as its string; an absolute
IRI is a string with a leading scheme (ALPHA followed by ALPHA / DIGIT /
`+` / `-` / `.`) before a colon, whose remaining characters are plausible
IRI characters (no spaces, control characters, or the characters RFC 3987
excludes). Resolution follows RFC 3986 §5.2 (no normalization), as the
source comments require. -/

def isSchemeChar (c : Char) : Bool :=
  c.isAlphanum || c = '+' || c = '-' || c = '.'

def isIriChar (c : Char) : Bool :=
  32 < c.toNat && c.toNat != 34 && c.toNat != 60 && c.toNat != 62 &&
  c.toNat != 92 && c.toNat != 94 && c.toNat != 96 &&
  c.toNat != 123 && c.toNat != 124 && c.toNat != 125

/-- The scheme of a string, when it starts with a valid scheme and a colon. -/
def schemeOf (s : Str) : Option Str :=
  match firstIdx s ':' with
  | none => none
  | some i =>
    let sc := s.take i
    match sc with
    | [] => none
    | c :: rest =>
      if c.isAlpha && rest.all isSchemeChar then some sc else none

/-- `Iri::new` validity: an absolute IRI has a scheme and acceptable
remaining characters. -/
def isAbsoluteIri (s : Str) : Bool :=
  match schemeOf s with
  | none => false
  | some sc => (s.drop (sc.length + 1)).all isIriChar

/-- `IriRef::new` validity: a (possibly relative) IRI reference. -/
def isIriRef (s : Str) : Bool := s.all isIriChar

structure IriParts where
  scheme : Str
  authority : Option Str
  path : Str
  query : Option Str
  fragment : Option Str

def splitAtFirst (s : Str) (c : Char) : Str × Option Str :=
  match firstIdx s c with
  | none => (s, none)
  | some i => (s.take i, some (s.drop (i + 1)))

/-- Parse an IRI reference into its RFC 3986 components. -/
def parseRef (s : Str) : IriParts :=
  let (beforeFrag, frag) := splitAtFirst s '#'
  let (beforeQuery, query) := splitAtFirst beforeFrag '?'
  let (schemePart, afterScheme) :=
    match schemeOf beforeQuery with
    | some sc => (sc, beforeQuery.drop (sc.length + 1))
    | none => ([], beforeQuery)
  let (auth, path) :=
    match afterScheme with
    | '/' :: '/' :: rest =>
      let i := rest.findIdx (fun c => c = '/' || c = '?' || c = '#')
      (some (rest.take i), rest.drop i)
    | other => (none, other)
  ⟨schemePart, auth, path, query, frag⟩

/-- Drop the last path segment of the output buffer (RFC 3986 §5.2.4). -/
def dropLastSegment (o : Str) : Str :=
  match lastIdx o '/' with
  | none => []
  | some i => o.take i

/-- RFC 3986 §5.2.4 remove_dot_segments, bounded by a fuel that the
wrapper below sets to more than the input length (the input shrinks at
every step, so the bound is never reached). -/
def removeDotSegmentsF : Nat → Str → Str → Str
  | 0, _, out => out
  | fuel + 1, input, out =>
    match input with
    | [] => out
    | '.' :: '.' :: '/' :: rest => removeDotSegmentsF fuel rest out
    | '.' :: '/' :: rest => removeDotSegmentsF fuel rest out
    | '/' :: '.' :: '/' :: rest => removeDotSegmentsF fuel ('/' :: rest) out
    | ['/', '.'] => out ++ ['/']
    | '/' :: '.' :: '.' :: '/' :: rest =>
      removeDotSegmentsF fuel ('/' :: rest) (dropLastSegment out)
    | ['/', '.', '.'] => dropLastSegment out ++ ['/']
    | ['.'] => out
    | ['.', '.'] => out
    | c :: rest =>
      let i := rest.findIdx (fun d => d = '/')
      removeDotSegmentsF fuel (rest.drop i) (out ++ (c :: rest.take i))

/-- RFC 3986 §5.2.4 remove_dot_segments. -/
def removeDotSegments (input : Str) (out : Str) : Str :=
  removeDotSegmentsF (input.length + 1) input out

/-- Keep the base path up to and including its last slash (RFC 3986 merge). -/
def mergePaths (base : IriParts) (refPath : Str) : Str :=
  if base.authority.isSome && base.path.isEmpty then '/' :: refPath
  else
    match lastIdx base.path '/' with
    | none => refPath
    | some i => base.path.take (i + 1) ++ refPath

def recompose (p : IriParts) : Str :=
  (if p.scheme.isEmpty then [] else p.scheme ++ [':']) ++
  (match p.authority with | none => [] | some a => '/' :: '/' :: a) ++
  p.path ++
  (match p.query with | none => [] | some q => '?' :: q) ++
  (match p.fragment with | none => [] | some f => '#' :: f)

/-- RFC 3986 §5.2 resolution of a reference against an absolute base. -/
def resolveRef (r : Str) (base : Str) : Str :=
  let R := parseRef r
  let B := parseRef base
  let T : IriParts :=
    if !R.scheme.isEmpty then
      ⟨R.scheme, R.authority, removeDotSegments R.path [], R.query, R.fragment⟩
    else if R.authority.isSome then
      ⟨B.scheme, R.authority, removeDotSegments R.path [], R.query, R.fragment⟩
    else if R.path.isEmpty then
      ⟨B.scheme, B.authority, B.path,
        (match R.query with | some q => some q | none => B.query), R.fragment⟩
    else if R.path.headD ' ' = '/' then
      ⟨B.scheme, B.authority, removeDotSegments R.path [], R.query, R.fragment⟩
    else
      ⟨B.scheme, B.authority, removeDotSegments (mergePaths B R.path) [], R.query, R.fragment⟩
  recompose T

/-- `resolve_iri` from `src/context/processing.rs`: resolve `iri_ref`
against the given base IRI, or require `iri_ref` to be absolute. -/
def resolve_iri (iriRef : Str) (baseIri : Option Str) : Option Str :=
  match baseIri with
  | some base => some (resolveRef iriRef base)
  | none => if isAbsoluteIri iriRef then some iriRef else none

/-- `Iri::relative_to` of the external library: turn an IRI into a
reference relative to a base when scheme and authority agree (modelled
coarsely; no claim of this development exercises it). -/
def relativeTo (iri : Str) (base : Str) : Str :=
  let I := parseRef iri
  let B := parseRef base
  if I.scheme = B.scheme && I.authority = B.authority then
    match lastIdx B.path '/' with
    | some i =>
      let dir := B.path.take (i + 1)
      if dir.isPrefixOf I.path then
        recompose ⟨[], none, I.path.drop dir.length, I.query, I.fragment⟩
      else recompose ⟨[], none, I.path, I.query, I.fragment⟩
    | none => recompose ⟨[], none, I.path, I.query, I.fragment⟩
  else iri

/-! ## The JSON data model

Inputs are generic JSON trees with order-preserving maps (spec §6).
Numbers are modelled as integers: no claim of this development involves a
JSON number (the only numeric comparison in the source is the `@version`
float test, which no claim exercises). -/

inductive Json where
  | null
  | bool (b : Bool)
  | num (n : Int)
  | str (s : Str)
  | arr (items : List Json)
  | obj (entries : List (Str × Json))

/-- `Object::get` of the `json` crate: first binding of the key. -/
def objGet (o : List (Str × Json)) (k : Str) : Option Json := lookupAssoc o k

/-- `JsonValue::as_str`. -/
def Json.asStr : Json → Option Str
  | .str s => some s
  | _ => none

/-- `JsonValue::is_null`. -/
def Json.isNull : Json → Bool
  | .null => true
  | _ => false

/-- `JsonValue::as_bool`. -/
def Json.asBool : Json → Option Bool
  | .bool b => some b
  | _ => none

/-- `util::as_array`: coerce a value to an array. -/
def asArray : Json → List Json
  | .arr items => items
  | v => [v]

mutual

/-- Structural equality of JSON values (`PartialEq for JsonValue`). -/
def jsonBeq : Json → Json → Bool
  | .null, .null => true
  | .bool a, .bool b => a = b
  | .num a, .num b => a = b
  | .str a, .str b => a = b
  | .arr a, .arr b => jsonBeqList a b
  | .obj a, .obj b => jsonBeqObj a b
  | _, _ => false
def jsonBeqList : List Json → List Json → Bool
  | [], [] => true
  | a :: as, b :: bs => jsonBeq a b && jsonBeqList as bs
  | _, _ => false
def jsonBeqObj : List (Str × Json) → List (Str × Json) → Bool
  | [], [] => true
  | (k, a) :: as, (k', b) :: bs => k = k' && jsonBeq a b && jsonBeqObj as bs
  | _, _ => false

end

/-! ## Terms, types and containers

Modelled from the spec: the `syntax` and `Reference` modules are not under
`src/`. A Term is a keyword, a reference (absolute IRI or blank-node
identifier), or null (spec §3); a blank node identifier is kept without its
`_:` head, which `asStr` restores. -/

inductive Direction where
  | ltr
  | rtl
deriving DecidableEq

/-- `Nullable`: an explicit-null option. -/
inductive Nullable (α : Type) where
  | nul
  | val (a : α)
deriving DecidableEq

inductive Term where
  | null
  | keyword (k : Str)
  | iri (s : Str)
  | blank (name : Str)
deriving DecidableEq

/-- `Term::as_str`. -/
def Term.asStr : Term → Str
  | .null => []
  | .keyword k => k
  | .iri s => s
  | .blank name => '_' :: ':' :: name

/-- `Term::as_iri`. -/
def Term.asIri : Term → Option Str
  | .iri s => some s
  | _ => none

/-- `Term::is_keyword`. -/
def Term.isKw : Term → Bool
  | .keyword _ => true
  | _ => false

/-- `BlankId::try_from`: parse a `_:`-headed string. -/
def blankTryFrom (s : Str) : Option Str :=
  match s with
  | '_' :: ':' :: name => some name
  | _ => none

/-- Type selectors (`Type<T>`): `@id`, `@vocab`, `@json`, `@none`, or an IRI. -/
inductive Typ where
  | id
  | vocab
  | json
  | noneTy
  | ref (s : Str)
deriving DecidableEq

/-- `TryFrom<Term> for Type`. -/
def typTryFrom : Term → Option Typ
  | .keyword k =>
    if k = str "@id" then some .id
    else if k = str "@vocab" then some .vocab
    else if k = str "@json" then some .json
    else if k = str "@none" then some .noneTy
    else none
  | .iri s => some (.ref s)
  | _ => none

/-- The elementary container keywords (`ContainerType`). -/
inductive ContainerType where
  | graph
  | id
  | index
  | language
  | list
  | set
  | type
deriving DecidableEq

/-- `ContainerType::try_from` a container keyword string. -/
def containerTypeTryFrom (s : Str) : Option ContainerType :=
  if s = str "@graph" then some .graph
  else if s = str "@id" then some .id
  else if s = str "@index" then some .index
  else if s = str "@language" then some .language
  else if s = str "@list" then some .list
  else if s = str "@set" then some .set
  else if s = str "@type" then some .type
  else none

/-- Validated container combinations (`Container`), per the spec's allowed
set: a single keyword, `@graph` with `@id` or `@index` optionally with
`@set`, or `@set` with one of `@index`, `@graph`, `@id`, `@type`,
`@language` (spec §3, §4.3). -/
inductive Container where
  | noCont
  | graph
  | id
  | index
  | language
  | list
  | set
  | type
  | graphId
  | graphIndex
  | graphSet
  | idSet
  | indexSet
  | languageSet
  | setType
  | graphIdSet
  | graphIndexSet
deriving DecidableEq

/-- `Container::add`: extend a container combination with one more
keyword; `none` when the combination is not allowed. -/
def containerAdd : Container → ContainerType → Option Container
  | .noCont, .graph => some .graph
  | .noCont, .id => some .id
  | .noCont, .index => some .index
  | .noCont, .language => some .language
  | .noCont, .list => some .list
  | .noCont, .set => some .set
  | .noCont, .type => some .type
  | .graph, .id => some .graphId
  | .graph, .index => some .graphIndex
  | .graph, .set => some .graphSet
  | .graphId, .set => some .graphIdSet
  | .graphIndex, .set => some .graphIndexSet
  | .graphSet, .id => some .graphIdSet
  | .graphSet, .index => some .graphIndexSet
  | .id, .set => some .idSet
  | .index, .set => some .indexSet
  | .language, .set => some .languageSet
  | .set, .graph => some .graphSet
  | .set, .id => some .idSet
  | .set, .index => some .indexSet
  | .set, .language => some .languageSet
  | .set, .type => some .setType
  | .type, .set => some .setType
  | _, _ => none

/-- `Container::contains`. -/
def containerContains : Container → ContainerType → Bool
  | .noCont, _ => false
  | .graph, t => t = .graph
  | .id, t => t = .id
  | .index, t => t = .index
  | .language, t => t = .language
  | .list, t => t = .list
  | .set, t => t = .set
  | .type, t => t = .type
  | .graphId, t => t = .graph || t = .id
  | .graphIndex, t => t = .graph || t = .index
  | .graphSet, t => t = .graph || t = .set
  | .idSet, t => t = .id || t = .set
  | .indexSet, t => t = .index || t = .set
  | .languageSet, t => t = .language || t = .set
  | .setType, t => t = .set || t = .type
  | .graphIdSet, t => t = .graph || t = .id || t = .set
  | .graphIndexSet, t => t = .graph || t = .index || t = .set

/-! ## Term definitions and the active context

Modelled from the spec: the `Context` / `TermDefinition` traits live outside
`src/`. A term definition carries the fields of spec §3; an active context
is an ordered term map plus base IRI, original base URL, vocabulary mapping,
default language, default base direction, and an optional previous context
(spec §3). Term-definition equality ignores `protected` (spec §3). -/

structure TermDefinition where
  value : Option Term := none
  prefixFlag : Bool := false
  protectedFlag : Bool := false
  reverseProperty : Bool := false
  typ : Option Typ := none
  language : Option (Nullable Str) := none
  direction : Option (Nullable Direction) := none
  container : Container := .noCont
  index : Option Str := none
  context : Option Json := none
  baseUrl : Option Str := none
  nest : Option Str := none

/-- Equality of two optional captured contexts. -/
def optJsonBeq : Option Json → Option Json → Bool
  | none, none => true
  | some a, some b => jsonBeq a b
  | _, _ => false

/-- `PartialEq for TermDefinition`: structural equality ignoring the
`protected` flag (spec §3: equality ignores `protected` for redefinition
checks). -/
def eqModProtected (a b : TermDefinition) : Bool :=
  a.value = b.value && a.prefixFlag = b.prefixFlag &&
  a.reverseProperty = b.reverseProperty && a.typ = b.typ &&
  a.language = b.language && a.direction = b.direction &&
  a.container = b.container && a.index = b.index &&
  optJsonBeq a.context b.context && a.baseUrl = b.baseUrl && a.nest = b.nest

inductive ActiveContext where
  | mk (definitions : List (Str × TermDefinition))
       (baseIri : Option Str)
       (originalBaseUrl : Option Str)
       (vocabulary : Option Term)
       (defaultLanguage : Option Str)
       (defaultBaseDirection : Option Direction)
       (previousContext : Option ActiveContext)

def ActiveContext.definitions : ActiveContext → List (Str × TermDefinition)
  | .mk d _ _ _ _ _ _ => d
def ActiveContext.baseIri : ActiveContext → Option Str
  | .mk _ b _ _ _ _ _ => b
def ActiveContext.originalBaseUrl : ActiveContext → Option Str
  | .mk _ _ o _ _ _ _ => o
def ActiveContext.vocabulary : ActiveContext → Option Term
  | .mk _ _ _ v _ _ _ => v
def ActiveContext.defaultLanguage : ActiveContext → Option Str
  | .mk _ _ _ _ l _ _ => l
def ActiveContext.defaultBaseDirection : ActiveContext → Option Direction
  | .mk _ _ _ _ _ d _ => d
def ActiveContext.previousContext : ActiveContext → Option ActiveContext
  | .mk _ _ _ _ _ _ p => p

/-- `Context::new`: a fresh context with `base_iri` and `original_base_url`
both set to the given base URL. -/
def ActiveContext.new (baseUrl : Option Str) : ActiveContext :=
  .mk [] baseUrl baseUrl none none none none

def ActiveContext.setBaseIri : ActiveContext → Option Str → ActiveContext
  | .mk d _ o v l dir p, b => .mk d b o v l dir p
def ActiveContext.setVocabulary : ActiveContext → Option Term → ActiveContext
  | .mk d b o _ l dir p, v => .mk d b o v l dir p
def ActiveContext.setDefaultLanguage : ActiveContext → Option Str → ActiveContext
  | .mk d b o v _ dir p, l => .mk d b o v l dir p
def ActiveContext.setDefaultBaseDirection : ActiveContext → Option Direction → ActiveContext
  | .mk d b o v l _ p, dir => .mk d b o v l dir p
def ActiveContext.setPreviousContext : ActiveContext → ActiveContext → ActiveContext
  | .mk d b o v l dir _, p => .mk d b o v l dir (some p)

/-- `Context::get`: the definition bound to a term. -/
def ActiveContext.get (c : ActiveContext) (t : Str) : Option TermDefinition :=
  lookupAssoc c.definitions t

/-- `Context::contains`: whether a term has a definition. -/
def ActiveContext.containsTerm (c : ActiveContext) (t : Str) : Bool :=
  (c.get t).isSome

/-- Remove a binding (keeping the order of the remaining entries). -/
def removeDef (l : List (Str × TermDefinition)) (k : Str) :
    List (Str × TermDefinition) :=
  match l with
  | [] => []
  | (k', v) :: rest => if k' = k then removeDef rest k else (k', v) :: removeDef rest k

/-- `ContextMut::set`: bind or remove a term definition, returning the
previous binding. An existing binding is replaced in place; a new binding
is appended, keeping insertion order stable (spec §5). -/
def ActiveContext.set (c : ActiveContext) (t : Str) (d : Option TermDefinition) :
    ActiveContext × Option TermDefinition :=
  let old := c.get t
  let newDefs :=
    match d with
    | none => removeDef c.definitions t
    | some d =>
      if old.isSome then
        c.definitions.map (fun p => if p.1 = t then (t, d) else p)
      else c.definitions ++ [(t, d)]
  (match c with
   | .mk _ b o v l dir p => .mk newDefs b o v l dir p, old)

/-- `has_protected_items` from `src/context/processing.rs`. -/
def has_protected_items (c : ActiveContext) : Bool :=
  c.definitions.any (fun p => p.2.protectedFlag)

/-! ## The processing stack (`src/context/processing.rs`) -/

/-- Context processing stack: the list of loaded context URLs, most recent
first (`StackNode` chain). -/
structure ProcessingStack where
  frames : List Str

def ProcessingStack.newStack : ProcessingStack := ⟨[]⟩

/-- `ProcessingStack::is_empty`. -/
def ProcessingStack.isEmptyStack (s : ProcessingStack) : Bool :=
  s.frames.isEmpty

/-- `StackNode::contains` / `ProcessingStack::cycle`: whether the URL is
already in the stack. -/
def ProcessingStack.cycle (s : ProcessingStack) (url : Str) : Bool :=
  s.frames.contains url

/-- `ProcessingStack::push`: push a new URL unless it is already in the
stack; `true` when the URL was added, `false` when a loop was detected.
The mutated stack is returned alongside the flag. -/
def ProcessingStack.push (s : ProcessingStack) (url : Str) : Bool × ProcessingStack :=
  if s.cycle url then (false, s) else (true, ⟨url :: s.frames⟩)

/-! ## Options, loader, errors, results -/

inductive ProcessingMode where
  | jsonLd10
  | jsonLd11
deriving DecidableEq

structure ProcessingOptions where
  processingMode : ProcessingMode
  overrideProtected : Bool
  propagate : Bool
deriving DecidableEq

/-- `ProcessingOptions::with_override`. -/
def ProcessingOptions.withOverride (o : ProcessingOptions) : ProcessingOptions :=
  { o with overrideProtected := true }

/-- `ProcessingOptions::with_no_override`. -/
def ProcessingOptions.withNoOverride (o : ProcessingOptions) : ProcessingOptions :=
  { o with overrideProtected := false }

/-- Default processing options: JSON-LD 1.1, no override, propagate. -/
def defaultOptions : ProcessingOptions := ⟨.jsonLd11, false, true⟩

/-- The remote-document loader contract (spec §6): a context URL resolves
to a document URL (after redirects) and the parsed value of the document's
top-level `@context` entry, or fails. -/
def Loader : Type := Str → Option (Str × Json)

/-- The error codes of spec §6. -/
inductive ErrorCode where
  | cyclicIriMapping
  | invalidTermDefinition
  | keywordRedefinition
  | invalidIriMapping
  | invalidReverseProperty
  | invalidContainerMapping
  | invalidTypeMapping
  | invalidLanguageMapping
  | invalidBaseDirection
  | invalidVocabMapping
  | invalidBaseIri
  | invalidDefaultLanguage
  | invalidPropagateValue
  | invalidProtectedValue
  | invalidScopedContext
  | invalidNestValue
  | invalidPrefixValue
  | invalidContextEntry
  | invalidContextNullification
  | invalidImportValue
  | invalidRemoteContext
  | invalidVersionValue
  | processingModeConflict
  | loadingDocumentFailed
  | loadingRemoteContextFailed
  | recursiveContextInclusion
  | iriConfusedWithPrefix
  | protectedTermRedefinition
  | invalidKeywordAlias
  | invalidLocalContext
deriving DecidableEq

/-- Result of a fueled computation: success, a source-program error, fuel
exhaustion, or a modelled panic (an `unwrap` of `None` in the source). The
fuel constructor is an artifact of the embedding, distinct from every
behaviour of the source. -/
inductive PResult (α : Type) where
  | ok (a : α)
  | err (e : ErrorCode)
  | fuelOut
  | crashed

def PResult.bind {α β : Type} : PResult α → (α → PResult β) → PResult β
  | .ok a, f => f a
  | .err e, _ => .err e
  | .fuelOut, _ => .fuelOut
  | .crashed, _ => .crashed

/-- A lenient term: a resolved term or an unresolved string (spec §4.2). -/
inductive Lenient where
  | ok (t : Term)
  | unknown (s : Str)
deriving DecidableEq

/-- `Lenient::as_str`. -/
def Lenient.asStr : Lenient → Str
  | .ok t => t.asStr
  | .unknown s => s

/-- `Lenient::as_iri`. -/
def Lenient.asIri : Lenient → Option Str
  | .ok t => t.asIri
  | .unknown s => if isAbsoluteIri s then some s else none

/-! ## String helpers of `src/context/processing.rs` -/

/-- `is_gen_delim`. -/
def is_gen_delim (c : Char) : Bool :=
  c = ':' || c = '/' || c = '?' || c = '#' || c = '[' || c = ']' || c = '@'

/-- `is_gen_delim_or_blank`. -/
def is_gen_delim_or_blank : Term → Bool
  | .keyword _ => false
  | .blank _ => true
  | .iri s =>
    match s.getLast? with
    | some c => is_gen_delim c
    | none => false
  | .null => false

/-- `contains_after_first`: the character occurs anywhere but first. -/
def contains_after_first (id : Str) (c : Char) : Bool :=
  match firstIdx id c with
  | some i => i > 0
  | none => false

/-- `contains_between_boundaries`: the first occurrence is not at the
start and the last occurrence is not at the end. -/
def contains_between_boundaries (id : Str) (c : Char) : Bool :=
  match firstIdx id c with
  | some i =>
    match lastIdx id c with
    | some j => i > 0 && j < id.length - 1
    | none => false
  | none => false

/-! ## Language tags

Modelled from the spec: the external `langtag` library validates language
tags per BCP47 (spec §4.3). Well-formedness here: a primary subtag of one
to eight ASCII letters, followed by subtags of one to eight alphanumeric
characters separated by single hyphens. -/

def splitOnChar (s : Str) (c : Char) : List Str :=
  match s with
  | [] => [[]]
  | d :: rest =>
    let parts := splitOnChar rest c
    if d = c then [] :: parts
    else
      match parts with
      | p :: ps => (d :: p) :: ps
      | [] => [[d]]

def parseLanguageTag (s : Str) : Bool :=
  match splitOnChar s '-' with
  | [] => false
  | primary :: subtags =>
    0 < primary.length && primary.length ≤ 8 && primary.all (fun c => c.isAlpha) &&
    subtags.all (fun t => 0 < t.length && t.length ≤ 8 && t.all (fun c => c.isAlphanum))

/-! ## Non-mutating IRI expansion

Modelled from the spec: `expansion::expand_iri` (used by `process_context`
for `@vocab` and by `define` for relative terms and `@index`) is not under
`src/`. It follows spec §4.2 with no local context and no lazy term
definition; its steps coincide with `expand_iri` of
`src/context/processing.rs` (lines 1197-1340) with an empty local context,
whose text the translation below follows. -/

/-- Steps 7-9 of spec §4.2: vocabulary mapping, document-relative
resolution, or the unresolved value. -/
def syncExpandTail (ac : ActiveContext) (value : Str)
    (documentRelative vocab : Bool) : Lenient :=
  match vocab, ac.vocabulary with
  | true, some vocMapping =>
    match vocMapping with
    | .iri _ | .blank _ =>
      let result := vocMapping.asStr ++ value
      if isAbsoluteIri result then .ok (.iri result)
      else
        match blankTryFrom result with
        | some b => .ok (.blank b)
        | none => .unknown result
    | _ => .unknown value
  | _, _ =>
    if documentRelative then
      if isIriRef value then
        match resolve_iri value ac.baseIri with
        | some v => .ok (.iri v)
        | none => .unknown value
      else .unknown value
    else .unknown value

/-- Step 6 of spec §4.2 (the compact-IRI branch) followed by the tail. -/
def syncExpandColon (ac : ActiveContext) (value : Str)
    (documentRelative vocab : Bool) : Lenient :=
  match firstIdx value ':' with
  | some index =>
    if index > 0 then
      let pre := value.take index
      let suffix := value.drop (index + 1)
      if pre = str "_" then .ok (.blank suffix)
      else if (str "//").isPrefixOf suffix then
        (if isAbsoluteIri value then .ok (.iri value) else .unknown value)
      else
        let viaPre : Option Lenient :=
          match ac.get pre with
          | some td =>
            if td.prefixFlag then
              match td.value with
              | some mapping =>
                let result := mapping.asStr ++ suffix
                if isAbsoluteIri result then some (.ok (.iri result))
                else
                  match blankTryFrom result with
                  | some b => some (.ok (.blank b))
                  | none => some (.unknown result)
              | none => none
            else none
          | none => none
        match viaPre with
        | some r => r
        | none =>
          if isAbsoluteIri value then .ok (.iri value)
          else syncExpandTail ac value documentRelative vocab
    else syncExpandTail ac value documentRelative vocab
  | none => syncExpandTail ac value documentRelative vocab

/-- Non-mutating IRI expansion (spec §4.2, no local context). -/
def syncExpandIri (ac : ActiveContext) (value : Str)
    (documentRelative vocab : Bool) : Lenient :=
  if isKeyword value then .ok (.keyword value)
  else if isKeywordLike value then .ok .null
  else
    let viaTerm : Option Lenient :=
      match ac.get value with
      | some td =>
        match td.value with
        | some m =>
          if m.isKw then some (.ok m)
          else if vocab then some (.ok m)
          else none
        | none => if vocab then some (.unknown value) else none
      | none => none
    match viaTerm with
    | some r => r
    | none => syncExpandColon ac value documentRelative vocab

instance : Monad PResult where
  pure := .ok
  bind := PResult.bind

/-! ## Pure pieces of `define` (`src/context/processing.rs`, lines 944-1186)

Each helper below translates one block of the Create Term Definition
algorithm that does not recurse into expansion or context processing; the
recursive blocks stay inline in `define` itself. -/

/-- The `@container` entry value fold (lines 967-980): add every container
keyword of the (array-coerced) value, failing on an invalid keyword or an
invalid combination. -/
def containerFold (c : Container) (entries : List Json) : PResult Container :=
  match entries with
  | [] => .ok c
  | e :: rest =>
    match e.asStr with
    | some s =>
      match containerTypeTryFrom s with
      | some ct =>
        match containerAdd c ct with
        | some c' => containerFold c' rest
        | none => .err .invalidContainerMapping
      | none => .err .invalidContainerMapping
    | none => .err .invalidContainerMapping

/-- Lines 944-1001: the `@container` entry. -/
def defineContainerStep (vobj : List (Str × Json)) (defn : TermDefinition)
    (opts : ProcessingOptions) : PResult TermDefinition :=
  match objGet vobj (str "@container") with
  | none => .ok defn
  | some cv =>
    let modeCheck : PResult Unit :=
      if opts.processingMode = .jsonLd10 then
        match cv.asStr with
        | some s =>
          if s = str "@graph" || s = str "@id" || s = str "@type" then
            .err .invalidContainerMapping
          else .ok ()
        | none => .err .invalidContainerMapping
      else .ok ()
    PResult.bind modeCheck fun _ =>
    PResult.bind (containerFold defn.container (asArray cv)) fun container =>
    let defn := { defn with container := container }
    if containerContains defn.container .type then
      match defn.typ with
      | some t =>
        match t with
        | .id | .vocab => .ok defn
        | _ => .err .invalidTypeMapping
      | none => .ok { defn with typ := some .id }
    else .ok defn

/-- Lines 1003-1028: the `@index` entry. -/
def defineIndexStep (ac : ActiveContext) (vobj : List (Str × Json))
    (defn : TermDefinition) (opts : ProcessingOptions) : PResult TermDefinition :=
  match objGet vobj (str "@index") with
  | none => .ok defn
  | some iv =>
    if !containerContains defn.container .index ||
        opts.processingMode = .jsonLd10 then .err .invalidTermDefinition
    else
      match iv.asStr with
      | some index =>
        match syncExpandIri ac index false true with
        | .ok (.iri _) => .ok { defn with index := some index }
        | _ => .err .invalidTermDefinition
      | none => .err .invalidTermDefinition

/-- Lines 1056-1100: the `@language` and `@direction` entries, considered
only when `@type` is absent. -/
def defineLangDirStep (vobj : List (Str × Json)) (defn : TermDefinition) :
    PResult TermDefinition :=
  if (objGet vobj (str "@type")).isSome then .ok defn
  else
    let langStep : PResult TermDefinition :=
      match objGet vobj (str "@language") with
      | none => .ok defn
      | some lv =>
        match lv with
        | .null => .ok { defn with language := some .nul }
        | .str s =>
          if parseLanguageTag s then .ok { defn with language := some (.val s) }
          else .err .invalidLanguageMapping
        | _ => .err .invalidLanguageMapping
    PResult.bind langStep fun defn =>
    match objGet vobj (str "@direction") with
    | none => .ok defn
    | some dv =>
      match dv.asStr with
      | some s =>
        if s = str "ltr" then .ok { defn with direction := some (.val .ltr) }
        else if s = str "rtl" then .ok { defn with direction := some (.val .rtl) }
        else .err .invalidBaseDirection
      | none =>
        if dv.isNull then .ok { defn with direction := some .nul }
        else .err .invalidBaseDirection

/-- Lines 1102-1124: the `@nest` entry. -/
def defineNestStep (vobj : List (Str × Json)) (defn : TermDefinition)
    (opts : ProcessingOptions) : PResult TermDefinition :=
  match objGet vobj (str "@nest") with
  | none => .ok defn
  | some nv =>
    if opts.processingMode = .jsonLd10 then .err .invalidTermDefinition
    else
      match nv.asStr with
      | some s =>
        if isKeyword s && s ≠ str "@nest" then .err .invalidNestValue
        else .ok { defn with nest := some s }
      | none => .err .invalidNestValue

/-- Lines 1126-1151: the `@prefix` entry. The source unwraps the IRI
mapping when checking the keyword restriction; an absent mapping is a
(modelled) panic. -/
def definePrefixStep (term : Str) (vobj : List (Str × Json))
    (defn : TermDefinition) (opts : ProcessingOptions) : PResult TermDefinition :=
  match objGet vobj (str "@prefix") with
  | none => .ok defn
  | some pv =>
    if term.contains ':' || term.contains '/' ||
        opts.processingMode = .jsonLd10 then .err .invalidTermDefinition
    else
      match pv.asBool with
      | some b =>
        let defn := { defn with prefixFlag := b }
        match defn.value with
        | some v =>
          if defn.prefixFlag && v.isKw then .err .invalidTermDefinition
          else .ok defn
        | none => .crashed
      | none => .err .invalidPrefixValue

/-- Lines 1153-1163: any entry other than the eleven known keys is an
invalid term definition. -/
def defineValidKeysStep (vobj : List (Str × Json)) : PResult Unit :=
  if vobj.all (fun kv =>
      kv.1 = str "@id" || kv.1 = str "@reverse" || kv.1 = str "@container" ||
      kv.1 = str "@context" || kv.1 = str "@direction" || kv.1 = str "@index" ||
      kv.1 = str "@language" || kv.1 = str "@nest" || kv.1 = str "@prefix" ||
      kv.1 = str "@protected" || kv.1 = str "@type") then .ok ()
  else .err .invalidTermDefinition

/-- Lines 1165-1186: the protected-redefinition check and the installation
of the definition. -/
def defineInstall (ac : ActiveContext) (defined : List (Str × Bool))
    (term : Str) (defn : TermDefinition)
    (previousDefinition : Option TermDefinition) (opts : ProcessingOptions) :
    PResult (ActiveContext × List (Str × Bool)) :=
  let checked : PResult TermDefinition :=
    if !opts.overrideProtected then
      match previousDefinition with
      | some prev =>
        if prev.protectedFlag then
          if !eqModProtected defn prev then .err .protectedTermRedefinition
          else .ok { defn with protectedFlag := true }
        else .ok defn
      | none => .ok defn
    else .ok defn
  PResult.bind checked fun defn =>
  .ok ((ac.set term (some defn)).1, insertAssoc defined term true)

/-! ## The mutually recursive core

`define` (Create Term Definition, lines 549-1194), `expand_iri`
(lines 1197-1340) and `process_context` (lines 155-480) of
`src/context/processing.rs`. The entry loop of step 5 and the term loop of
step 5.13 are split into `processEntries` / `processMapEntry` /
`defineLoop`; fuel decreases at every loop step and recursive call. -/

mutual

/-- `define`: the Create Term Definition algorithm. The mutated
`active_context` and `defined` map are threaded through the result. -/
def define (fuel : Nat) (ac : ActiveContext) (lctx : List (Str × Json))
    (term : Str) (defined : List (Str × Bool)) (stack : ProcessingStack)
    (loader : Loader) (baseUrl : Option Str) (prot : Bool)
    (opts : ProcessingOptions) : PResult (ActiveContext × List (Str × Bool)) :=
  match fuel with
  | 0 => .fuelOut
  | fuel + 1 =>
    match lookupAssoc defined term with
    | some true => .ok (ac, defined)
    | some false => .err .cyclicIriMapping
    | none =>
      if term.isEmpty then .err .invalidTermDefinition
      else
        match lookupAssoc lctx term with
        | none => .ok (ac, defined)
        | some value =>
          let defined := insertAssoc defined term false
          -- lines 577-620: the `@type` / keyword / keyword-like gate;
          -- `ok false` is the silent skip of a keyword-like term name
          let gate : PResult Bool :=
            if term = str "@type" then
              if opts.processingMode = .jsonLd10 then .err .keywordRedefinition
              else
                match value with
                | .obj o =>
                  if o.isEmpty then .err .keywordRedefinition
                  else if o.all (fun kv =>
                      (kv.1 = str "@container" && jsonBeq kv.2 (.str (str "@set"))) ||
                      kv.1 = str "@protected") then .ok true
                  else .err .keywordRedefinition
                | _ => .err .keywordRedefinition
            else if isKeyword term then .err .keywordRedefinition
            else if isKeywordLike term then .ok false
            else .ok true
          PResult.bind gate fun go =>
          if !go then .ok (ac, defined)
          else
            -- lines 622-624: remove any previous definition
            let acPrev := ac.set term none
            let ac := acPrev.1
            let previousDefinition := acPrev.2
            -- lines 626-650: value normalization and the simple-term flag
            let norm : PResult (Bool × List (Str × Json)) :=
              match value with
              | .null => .ok (true, [(str "@id", Json.null)])
              | .str s => .ok (true, [(str "@id", Json.str s)])
              | .obj o => .ok (false, o)
              | _ => .err .invalidTermDefinition
            PResult.bind norm fun st =>
            let simpleTerm := st.1
            let vobj := st.2
            -- lines 652-655
            let defn : TermDefinition := { protectedFlag := prot }
            -- lines 657-673: the `@protected` entry
            let protStep : PResult TermDefinition :=
              match objGet vobj (str "@protected") with
              | none => .ok defn
              | some pv =>
                match pv with
                | .bool b =>
                  if opts.processingMode = .jsonLd10 then .err .invalidTermDefinition
                  else .ok { defn with protectedFlag := b }
                | _ => .err .invalidProtectedValue
            PResult.bind protStep fun defn =>
            -- lines 675-706: the `@type` entry
            let typeStep : PResult (TermDefinition × ActiveContext × List (Str × Bool)) :=
              match objGet vobj (str "@type") with
              | none => .ok (defn, ac, defined)
              | some tv =>
                match tv.asStr with
                | none => .err .invalidTypeMapping
                | some typStr =>
                  PResult.bind
                    (expand_iri fuel ac typStr false true lctx defined stack loader opts)
                    fun r =>
                  match r.1 with
                  | .unknown _ => .err .invalidTypeMapping
                  | .ok t =>
                    if opts.processingMode = .jsonLd10 &&
                        (t = .keyword (str "@json") || t = .keyword (str "@none")) then
                      .err .invalidTypeMapping
                    else
                      match typTryFrom t with
                      | some ty => .ok ({ defn with typ := some ty }, r.2.1, r.2.2)
                      | none => .err .invalidTypeMapping
            PResult.bind typeStep fun s1 =>
            let defn := s1.1
            let ac := s1.2.1
            let defined := s1.2.2
            -- lines 708-778: the `@reverse` entry (installs and returns)
            match objGet vobj (str "@reverse") with
            | some reverseValue =>
              if (objGet vobj (str "@id")).isSome || (objGet vobj (str "@nest")).isSome then
                .err .invalidReverseProperty
              else
                (match reverseValue.asStr with
                 | none => .err .invalidIriMapping
                 | some rv =>
                   if isKeywordLike rv then .ok (ac, defined)
                   else
                     PResult.bind
                       (expand_iri fuel ac rv false true lctx defined stack loader opts)
                       fun r =>
                     let ac := r.2.1
                     let defined := r.2.2
                     let valStep : PResult TermDefinition :=
                       match r.1 with
                       | .ok (.iri m) => .ok { defn with value := some (.iri m) }
                       | .ok (.blank b) => .ok { defn with value := some (.blank b) }
                       | _ => .err .invalidIriMapping
                     PResult.bind valStep fun defn =>
                     let contStep : PResult TermDefinition :=
                       match objGet vobj (str "@container") with
                       | none => .ok defn
                       | some cv =>
                         match cv with
                         | .null => .ok defn
                         | .str s =>
                           match containerTypeTryFrom s with
                           | some ct =>
                             match ct with
                             | .set | .index =>
                               .ok { defn with
                                 container := (containerAdd defn.container ct).getD defn.container }
                             | _ => .err .invalidReverseProperty
                           | none => .err .invalidReverseProperty
                         | _ => .err .invalidReverseProperty
                     PResult.bind contStep fun defn =>
                     let defn := { defn with reverseProperty := true }
                     .ok ((ac.set term (some defn)).1, insertAssoc defined term true))
            | none =>
              -- lines 780-942: establish the IRI mapping;
              -- `ok none` is the keyword-like `@id` skip
              let idValue := objGet vobj (str "@id")
              let idDiffers : Bool :=
                match idValue with
                | some v => decide (v.asStr ≠ some term)
                | none => false
              let iriStep :
                  PResult (Option (TermDefinition × ActiveContext × List (Str × Bool))) :=
                if idDiffers then
                  match idValue with
                  | some v =>
                    -- lines 784-859: the `@id` entry differs from the term
                    if v.isNull then .ok (some (defn, ac, defined))
                    else
                      match v.asStr with
                      | none => .err .invalidIriMapping
                      | some idStr =>
                        if isKeywordLike idStr && !isKeyword idStr then .ok none
                        else
                          PResult.bind
                            (expand_iri fuel ac idStr false true lctx defined stack loader opts)
                            fun r =>
                          let ac := r.2.1
                          let defined := r.2.2
                          match r.1 with
                          | .unknown _ => .err .invalidIriMapping
                          | .ok t =>
                            if t = .keyword (str "@context") then .err .invalidKeywordAlias
                            else
                              let defn := { defn with value := some t }
                              let boundaryStep :
                                  PResult (TermDefinition × ActiveContext × List (Str × Bool)) :=
                                if contains_between_boundaries term ':' || term.contains '/' then
                                  let defined := insertAssoc defined term true
                                  PResult.bind
                                    (expand_iri fuel ac term false true lctx defined stack loader opts)
                                    fun r2 =>
                                  match r2.1 with
                                  | .ok expandedTerm =>
                                    if defn.value ≠ some expandedTerm then .err .invalidIriMapping
                                    else .ok (defn, r2.2.1, r2.2.2)
                                  | .unknown _ => .err .invalidIriMapping
                                else .ok (defn, ac, defined)
                              PResult.bind boundaryStep fun s2 =>
                              let defn := s2.1
                              let defn :=
                                if !term.contains ':' && !term.contains '/' && simpleTerm &&
                                    is_gen_delim_or_blank t then
                                  { defn with prefixFlag := true }
                                else defn
                              .ok (some (defn, s2.2.1, s2.2.2))
                  | none => .crashed
                else if contains_after_first term ':' then
                  -- lines 860-904: the term is a compact IRI, IRI or blank node
                  match firstIdx term ':' with
                  | some i =>
                    let pre := term.take i
                    let suffix := term.drop (i + 1)
                    PResult.bind
                      (define fuel ac lctx pre defined stack loader none false
                        opts.withNoOverride)
                      fun r =>
                    let ac := r.1
                    let defined := r.2
                    match ac.get pre with
                    | some prefixDefinition =>
                      let result :=
                        (match prefixDefinition.value with
                         | some pk =>
                           match pk.asIri with
                           | some pi => pi
                           | none => []
                         | none => []) ++ suffix
                      if isAbsoluteIri result then
                        .ok (some ({ defn with value := some (.iri result) }, ac, defined))
                      else .err .invalidIriMapping
                    | none =>
                      if pre = str "_" then
                        .ok (some ({ defn with value := some (.blank suffix) }, ac, defined))
                      else if isAbsoluteIri term then
                        .ok (some ({ defn with value := some (.iri term) }, ac, defined))
                      else .err .invalidIriMapping
                  | none => .crashed
                else if term.contains '/' then
                  -- lines 905-916: relative IRI reference
                  match syncExpandIri ac term false true with
                  | .ok (.iri id) =>
                    .ok (some ({ defn with value := some (.iri id) }, ac, defined))
                  | _ => .err .invalidIriMapping
                else if term = str "@type" then
                  -- lines 917-920
                  .ok (some ({ defn with value := some (.keyword (str "@type")) }, ac, defined))
                else
                  -- lines 921-942: the vocabulary mapping
                  match ac.vocabulary with
                  | some voc =>
                    match voc.asIri with
                    | some vi =>
                      let result := vi ++ term
                      if isAbsoluteIri result then
                        .ok (some ({ defn with value := some (.iri result) }, ac, defined))
                      else .err .invalidIriMapping
                    | none => .err .invalidIriMapping
                  | none => .err .invalidIriMapping
              PResult.bind iriStep fun res =>
              match res with
              | none => .ok (ac, defined)
              | some s3 =>
                let defn := s3.1
                let ac := s3.2.1
                let defined := s3.2.2
                PResult.bind (defineContainerStep vobj defn opts) fun defn =>
                PResult.bind (defineIndexStep ac vobj defn opts) fun defn =>
                -- lines 1030-1054: the scoped `@context` entry
                let ctxStep : PResult TermDefinition :=
                  match objGet vobj (str "@context") with
                  | none => .ok defn
                  | some ctxVal =>
                    if opts.processingMode = .jsonLd10 then .err .invalidTermDefinition
                    else
                      match process_context fuel ac ctxVal stack loader baseUrl
                          opts.withOverride with
                      | .ok _ => .ok { defn with context := some ctxVal, baseUrl := baseUrl }
                      | .err _ => .err .invalidScopedContext
                      | .fuelOut => .fuelOut
                      | .crashed => .crashed
                PResult.bind ctxStep fun defn =>
                PResult.bind (defineLangDirStep vobj defn) fun defn =>
                PResult.bind (defineNestStep vobj defn opts) fun defn =>
                PResult.bind (definePrefixStep term vobj defn opts) fun defn =>
                PResult.bind (defineValidKeysStep vobj) fun _ =>
                defineInstall ac defined term defn previousDefinition opts

/-- `expand_iri` (lines 1197-1340): IRI expansion with a local context and
lazy term definition. -/
def expand_iri (fuel : Nat) (ac : ActiveContext) (value : Str)
    (documentRelative vocab : Bool) (lctx : List (Str × Json))
    (defined : List (Str × Bool)) (stack : ProcessingStack) (loader : Loader)
    (opts : ProcessingOptions) :
    PResult (Lenient × ActiveContext × List (Str × Bool)) :=
  match fuel with
  | 0 => .fuelOut
  | fuel + 1 =>
    if isKeyword value then .ok (.ok (.keyword value), ac, defined)
    else if isKeywordLike value then .ok (.ok .null, ac, defined)
    else
      PResult.bind
        (define fuel ac lctx value defined stack loader none false opts.withNoOverride)
        fun r0 =>
      let ac := r0.1
      let defined := r0.2
      let viaTerm : Option Lenient :=
        match ac.get value with
        | some td =>
          match td.value with
          | some m =>
            if m.isKw then some (.ok m)
            else if vocab then some (.ok m)
            else none
          | none => if vocab then some (.unknown value) else none
        | none => none
      match viaTerm with
      | some r => .ok (r, ac, defined)
      | none =>
        match firstIdx value ':' with
        | some index =>
          if index > 0 then
            let pre := value.take index
            let suffix := value.drop (index + 1)
            if pre = str "_" then .ok (.ok (.blank suffix), ac, defined)
            else if (str "//").isPrefixOf suffix then
              (if isAbsoluteIri value then .ok (.ok (.iri value), ac, defined)
               else .ok (.unknown value, ac, defined))
            else
              PResult.bind
                (define fuel ac lctx pre defined stack loader none false
                  opts.withNoOverride)
                fun r1 =>
              let ac := r1.1
              let defined := r1.2
              let viaPre : Option Lenient :=
                match ac.get pre with
                | some td =>
                  if td.prefixFlag then
                    match td.value with
                    | some mapping =>
                      let result := mapping.asStr ++ suffix
                      if isAbsoluteIri result then some (.ok (.iri result))
                      else
                        match blankTryFrom result with
                        | some b => some (.ok (.blank b))
                        | none => some (.unknown result)
                    | none => none
                  else none
                | none => none
              match viaPre with
              | some r => .ok (r, ac, defined)
              | none =>
                if isAbsoluteIri value then .ok (.ok (.iri value), ac, defined)
                else .ok (syncExpandTail ac value documentRelative vocab, ac, defined)
          else .ok (syncExpandTail ac value documentRelative vocab, ac, defined)
        | none => .ok (syncExpandTail ac value documentRelative vocab, ac, defined)

/-- `process_context` (lines 155-480): the Context Processing algorithm. -/
def process_context (fuel : Nat) (activeContext : ActiveContext)
    (localContext : Json) (remoteContexts : ProcessingStack) (loader : Loader)
    (baseUrl : Option Str) (opts : ProcessingOptions) : PResult ActiveContext :=
  match fuel with
  | 0 => .fuelOut
  | fuel + 1 =>
    -- step 2: `@propagate` in a map local context overrides the option
    let optsStep : PResult ProcessingOptions :=
      match localContext with
      | .obj o =>
        match objGet o (str "@propagate") with
        | some pv =>
          if opts.processingMode = .jsonLd10 then .err .invalidContextEntry
          else
            match pv with
            | .bool b => .ok { opts with propagate := b }
            | _ => .err .invalidPropagateValue
        | none => .ok opts
      | _ => .ok opts
    PResult.bind optsStep fun opts =>
    -- step 1 and step 3
    let result := activeContext
    let result :=
      if !opts.propagate && result.previousContext.isNone then
        result.setPreviousContext activeContext
      else result
    -- steps 4-5
    processEntries fuel activeContext result (asArray localContext)
      remoteContexts loader baseUrl opts

/-- Step 5 of `process_context`: the loop over the entries of the
array-coerced local context. -/
def processEntries (fuel : Nat) (activeContext : ActiveContext)
    (result : ActiveContext) (entries : List Json)
    (remoteContexts : ProcessingStack) (loader : Loader) (baseUrl : Option Str)
    (opts : ProcessingOptions) : PResult ActiveContext :=
  match entries with
  | [] => .ok result
  | context :: rest =>
    match fuel with
    | 0 => .fuelOut
    | fuel + 1 =>
      match context with
      | .null =>
        -- step 5.1: nullification
        if !opts.overrideProtected && has_protected_items result then
          .err .invalidContextNullification
        else
          let previousResult := result
          let result := ActiveContext.new activeContext.originalBaseUrl
          let result :=
            if !opts.propagate then result.setPreviousContext previousResult
            else result
          processEntries fuel activeContext result rest remoteContexts loader
            baseUrl opts
      | .str s =>
        -- step 5.2: remote context
        if isIriRef s then
          match resolve_iri s baseUrl with
          | none => .err .loadingRemoteContextFailed
          | some contextIri =>
            let pushed := remoteContexts.push contextIri
            if pushed.1 then
              match loader contextIri with
              | none => .err .loadingRemoteContextFailed
              | some doc =>
                let newOpts : ProcessingOptions := ⟨opts.processingMode, false, true⟩
                PResult.bind
                  (process_context fuel result doc.2 pushed.2 loader (some doc.1)
                    newOpts)
                  fun result =>
                processEntries fuel activeContext result rest pushed.2 loader
                  baseUrl opts
            else
              -- a duplicate push is skipped silently
              processEntries fuel activeContext result rest pushed.2 loader
                baseUrl opts
        else .err .loadingDocumentFailed
      | .obj o =>
        -- step 5.4: context definition
        PResult.bind (processMapEntry fuel result o remoteContexts loader baseUrl opts)
          fun result =>
        processEntries fuel activeContext result rest remoteContexts loader
          baseUrl opts
      | _ => .err .invalidLocalContext

/-- Steps 5.5-5.13 of `process_context`: one map entry of the local
context. -/
def processMapEntry (fuel : Nat) (result : ActiveContext)
    (contextObj : List (Str × Json)) (remoteContexts : ProcessingStack)
    (loader : Loader) (baseUrl : Option Str) (opts : ProcessingOptions) :
    PResult ActiveContext :=
  match fuel with
  | 0 => .fuelOut
  | fuel + 1 =>
  -- step 5.5: `@version` (numbers are modelled as integers, so only the
  -- string form "1.1" passes; no claim exercises `@version`)
  let versionStep : PResult Unit :=
    match objGet contextObj (str "@version") with
    | some vv =>
      if !jsonBeq vv (.str (str "1.1")) then .err .invalidVersionValue
      else if opts.processingMode = .jsonLd10 then .err .processingModeConflict
      else .ok ()
    | none => .ok ()
  PResult.bind versionStep fun _ =>
  -- step 5.6: `@import`
  let importStep : PResult (List (Str × Json)) :=
    match objGet contextObj (str "@import") with
    | some iv =>
      if opts.processingMode = .jsonLd10 then .err .invalidContextEntry
      else
        match iv.asStr with
        | some importStr =>
          if isIriRef importStr then
            match resolve_iri importStr baseUrl with
            | some importIri =>
              match loader importIri with
              | none => .err .loadingRemoteContextFailed
              | some doc =>
                match doc.2 with
                | .obj io =>
                  if (objGet io (str "@import")).isSome then .err .invalidContextEntry
                  else
                    .ok (io.foldl (fun acc kv =>
                      if (objGet acc kv.1).isSome then acc else acc ++ [kv]) contextObj)
                | _ => .err .invalidRemoteContext
            | none => .err .invalidImportValue
          else .err .invalidImportValue
        | none => .err .invalidImportValue
    | none => .ok contextObj
  PResult.bind importStep fun contextObj =>
  -- step 5.7: `@base`, only when the remote-contexts stack is empty
  let baseStep : PResult ActiveContext :=
    if remoteContexts.isEmptyStack then
      match objGet contextObj (str "@base") with
      | none => .ok result
      | some v =>
        match v with
        | .null => .ok (result.setBaseIri none)
        | .str s =>
          if isIriRef s then
            if isAbsoluteIri s then .ok (result.setBaseIri (some s))
            else
              match resolve_iri s result.baseIri with
              | some resolved => .ok (result.setBaseIri (some resolved))
              | none => .err .invalidBaseIri
          else .err .invalidBaseIri
        | _ => .err .invalidBaseIri
    else .ok result
  PResult.bind baseStep fun result =>
  -- step 5.8: `@vocab`
  let vocabStep : PResult ActiveContext :=
    match objGet contextObj (str "@vocab") with
    | none => .ok result
    | some v =>
      match v with
      | .null => .ok (result.setVocabulary none)
      | .str s =>
        match syncExpandIri result s true true with
        | .ok (.iri m) => .ok (result.setVocabulary (some (.iri m)))
        | .ok (.blank b) => .ok (result.setVocabulary (some (.blank b)))
        | _ => .err .invalidVocabMapping
      | _ => .err .invalidVocabMapping
  PResult.bind vocabStep fun result =>
  -- step 5.9: `@language`
  let langStep : PResult ActiveContext :=
    match objGet contextObj (str "@language") with
    | none => .ok result
    | some v =>
      if v.isNull then .ok (result.setDefaultLanguage none)
      else
        match v.asStr with
        | some s =>
          if parseLanguageTag s then .ok (result.setDefaultLanguage (some s))
          else .err .invalidDefaultLanguage
        | none => .err .invalidDefaultLanguage
  PResult.bind langStep fun result =>
  -- step 5.10: `@direction`
  let dirStep : PResult ActiveContext :=
    match objGet contextObj (str "@direction") with
    | none => .ok result
    | some v =>
      if opts.processingMode = .jsonLd10 then .err .invalidContextEntry
      else if v.isNull then .ok (result.setDefaultBaseDirection none)
      else
        match v.asStr with
        | some s =>
          if s = str "ltr" then .ok (result.setDefaultBaseDirection (some .ltr))
          else if s = str "rtl" then .ok (result.setDefaultBaseDirection (some .rtl))
          else .err .invalidBaseDirection
        | none => .err .invalidBaseDirection
  PResult.bind dirStep fun result =>
  -- steps 5.12-5.13: the `@protected` default and the term loop
  let protVal : Bool :=
    match objGet contextObj (str "@protected") with
    | some (.bool b) => b
    | _ => false
  defineLoop fuel result contextObj (contextObj.map Prod.fst) [] remoteContexts
    loader baseUrl protVal opts

/-- Step 5.13 of `process_context`: invoke Create Term Definition for every
non-reserved key of the context map. -/
def defineLoop (fuel : Nat) (result : ActiveContext)
    (contextObj : List (Str × Json)) (keys : List Str)
    (defined : List (Str × Bool)) (remoteContexts : ProcessingStack)
    (loader : Loader) (baseUrl : Option Str) (protVal : Bool)
    (opts : ProcessingOptions) : PResult ActiveContext :=
  match keys with
  | [] => .ok result
  | k :: rest =>
    match fuel with
    | 0 => .fuelOut
    | fuel + 1 =>
      if k = str "@base" || k = str "@direction" || k = str "@import" ||
          k = str "@language" || k = str "@propagate" || k = str "@protected" ||
          k = str "@version" || k = str "@vocab" then
        defineLoop fuel result contextObj rest defined remoteContexts loader
          baseUrl protVal opts
      else
        PResult.bind
          (define fuel result contextObj k defined remoteContexts loader baseUrl
            protVal opts)
          fun r =>
        defineLoop fuel r.1 contextObj rest r.2 remoteContexts loader baseUrl
          protVal opts

end

/-! ## Value objects seen by IRI compaction

Modelled from the spec: the `object` module (`Indexed<Object<T>>`) is not
under `src/`. Only the surface consulted by `compact_iri_full` is modelled:
an indexed object is a pair of an inner object and an optional `@index`;
the inner object is a value object (language string, literal with optional
type, or JSON literal), a node (with optional `@id` and a graph flag), or a
list of indexed objects. -/

inductive LitValue where
  | langString (language : Option Str) (direction : Option Direction)
  | literal (ty : Option Str)
  | json
deriving DecidableEq

/-- `Value::language`. -/
def LitValue.lang : LitValue → Option Str
  | .langString l _ => l
  | _ => none

/-- `Value::direction`. -/
def LitValue.dir : LitValue → Option Direction
  | .langString _ d => d
  | _ => none

/-- `Value::typ`. -/
def LitValue.typ : LitValue → Option Typ
  | .literal (some ty) => some (.ref ty)
  | .json => some .json
  | _ => none

structure NodeObj where
  id : Option Lenient
  graph : Bool

inductive Obj where
  | value (v : LitValue)
  | node (n : NodeObj)
  | list (items : List (Obj × Option Str))

/-- `Indexed<Object>`: an inner object with an optional `@index`. -/
abbrev IndexedObj := Obj × Option Str

/-- `Object::is_graph` through `Indexed`. -/
def IndexedObj.isGraph (v : IndexedObj) : Bool :=
  match v.1 with
  | .node n => n.graph
  | _ => false

/-- `Indexed::id` (the node's `@id`, when the object is a node). -/
def IndexedObj.nodeId (v : IndexedObj) : Option Lenient :=
  match v.1 with
  | .node n => n.id
  | _ => none

/-! ## The inverse context

Modelled from the spec: the `context::inverse` module is not under `src/`.
The InverseContext is a derived index
container-combination → IRI → selector-kind → selector-value → term
(spec §2, §3), populated from the shortest (then lexicographically least)
term first, so that each slot keeps the shortest usable term (spec
glossary). The `@type` selector values are `@reverse` and the type
selectors; the `@language` values are nullable language-direction pairs,
with `(None, None)` doubling as the `@none` slot; the `@any` kind has a
single slot filled by the first term that creates the entry (spec §3). -/

inductive TypeSelection where
  | reverse
  | ty (t : Typ)
  | any
deriving DecidableEq

abbrev LangKey := Nullable (Option Str × Option Direction)

inductive LangSelection where
  | lang (k : LangKey)
  | any
deriving DecidableEq

inductive Selection where
  | type (l : List TypeSelection)
  | lang (l : List LangSelection)
  | any

/-- The computed type/language preference of a value
(`TypeLangValue`). -/
inductive TypeLangValue where
  | type (t : TypeSelection)
  | lang (l : LangSelection)
deriving DecidableEq

/-- Keys of the `@type` map of an inverse-context entry. -/
inductive TypeSelKey where
  | reverse
  | ty (t : Typ)
deriving DecidableEq

structure InvSlots where
  typeMap : List (TypeSelKey × Str)
  langMap : List (LangKey × Str)
  anySlot : Option Str

abbrev InvEntry := List (Container × InvSlots)

abbrev InverseContext := List (Term × InvEntry)

def alistGet {κ α : Type} [DecidableEq κ] (l : List (κ × α)) (k : κ) : Option α :=
  match l with
  | [] => none
  | (k', v) :: rest => if k' = k then some v else alistGet rest k

/-- Update or create the binding of a key, keeping positions stable. -/
def alistUpdate {κ α : Type} [DecidableEq κ] (l : List (κ × α)) (k : κ)
    (init : α) (f : α → α) : List (κ × α) :=
  match l with
  | [] => [(k, f init)]
  | (k', v) :: rest =>
    if k' = k then (k, f v) :: rest else (k', v) :: alistUpdate rest k init f

/-- Keep the first (shortest) term bound to a selector value. -/
def insIfAbsent {κ : Type} [DecidableEq κ] (l : List (κ × Str)) (k : κ)
    (t : Str) : List (κ × Str) :=
  match alistGet l k with
  | some _ => l
  | none => l ++ [(k, t)]

/-- Term ordering for inverse-context construction: shortest first, ties
by lexicographic order. -/
def termLe (a b : Str) : Bool :=
  a.length < b.length || (a.length = b.length && !lexLt b a)

def insertSorted (x : Str × TermDefinition) :
    List (Str × TermDefinition) → List (Str × TermDefinition)
  | [] => [x]
  | y :: rest => if termLe x.1 y.1 then x :: y :: rest else y :: insertSorted x rest

def sortDefs : List (Str × TermDefinition) → List (Str × TermDefinition)
  | [] => []
  | x :: rest => insertSorted x (sortDefs rest)

/-- The language-direction selector value of a term definition: explicit
null mappings select the `@null` slot; otherwise the pair of the present
parts. -/
def langKeyOfDef (d : TermDefinition) : LangKey :=
  let langPart : Option Str :=
    match d.language with
    | some (.val l) => some l
    | _ => none
  let dirPart : Option Direction :=
    match d.direction with
    | some (.val dd) => some dd
    | _ => none
  if (d.language = some .nul && dirPart = none) ||
      (d.direction = some .nul && langPart = none) then .nul
  else .val (langPart, dirPart)

/-- Index one term definition into the slots of its entry. -/
def invUpdateSlots (k : Str) (d : TermDefinition) (defaultKey : LangKey)
    (slots : InvSlots) : InvSlots :=
  if d.reverseProperty then
    { slots with typeMap := insIfAbsent slots.typeMap .reverse k }
  else
    match d.typ with
    | some t => { slots with typeMap := insIfAbsent slots.typeMap (.ty t) k }
    | none =>
      if d.language.isSome || d.direction.isSome then
        { slots with langMap := insIfAbsent slots.langMap (langKeyOfDef d) k }
      else
        { slots with
          langMap := insIfAbsent (insIfAbsent slots.langMap defaultKey k)
            (.val (none, none)) k,
          typeMap := insIfAbsent slots.typeMap (.ty .noneTy) k }

/-- Index one term definition into the inverse context under its IRI
mapping and container combination. -/
def buildStep (defaultKey : LangKey) (inv : InverseContext)
    (kd : Str × TermDefinition) : InverseContext :=
  match kd.2.value with
  | none => inv
  | some var =>
    alistUpdate inv var []
      (fun entry =>
        alistUpdate entry kd.2.container ⟨[], [], some kd.1⟩
          (invUpdateSlots kd.1 kd.2 defaultKey))

/-- Build the inverse context of an active context (`Inversible::inverse`,
rebuilt on demand: spec §3, the InverseContext is a pure function of the
ActiveContext). -/
def buildInverse (c : ActiveContext) : InverseContext :=
  (sortDefs c.definitions).foldl
    (buildStep (.val (c.defaultLanguage, c.defaultBaseDirection))) []

/-- First hit of a partial function along a list. -/
def firstHit {α β : Type} (f : α → Option β) : List α → Option β
  | [] => none
  | x :: rest =>
    match f x with
    | some b => some b
    | none => firstHit f rest

/-- Try the preferred selector values against one entry's slots. -/
def selectInSlots (slots : InvSlots) : Selection → Option Str
  | .any => slots.anySlot
  | .type items =>
    firstHit (fun item =>
      match item with
      | .reverse => alistGet slots.typeMap .reverse
      | .ty t => alistGet slots.typeMap (.ty t)
      | .any => slots.anySlot) items
  | .lang items =>
    firstHit (fun item =>
      match item with
      | .lang k => alistGet slots.langMap k
      | .any => slots.anySlot) items

/-- `entry.select(containers, selection)`: the first container with an
entry whose preferred values hit a term wins (spec §4.5 step 4). -/
def entrySelect (entry : InvEntry) (containers : List Container)
    (selection : Selection) : Option Str :=
  match containers with
  | [] => none
  | c :: rest =>
    match alistGet entry c with
    | some slots =>
      match selectInSlots slots selection with
      | some t => some t
      | none => entrySelect entry rest selection
    | none => entrySelect entry rest selection

/-! ## IRI compaction (`src/compaction/iri.rs`) -/

/-- Lines 92-158 of `compact_iri_full`: fold the list items into a common
type and a common language-direction, stopping early when both are
exhausted. `none` for the common type means "not yet seen"; `some none`
means "no common type". -/
def listCommonFold (items : List IndexedObj)
    (commonType : Option (Option Typ)) (commonLangDir : Option LangKey) :
    Option (Option Typ) × Option LangKey :=
  match items with
  | [] => (commonType, commonLangDir)
  | item :: rest =>
    let st :=
      match item.1 with
      | .value v =>
        match v with
        | .langString l d =>
          (true, (none : Option Typ), (some (.val (l, d)) : Option LangKey))
        | .literal (some ty) => (true, some (Typ.ref ty), (none : Option LangKey))
        | .literal none => (true, none, (some .nul : Option LangKey))
        | .json => (true, some Typ.json, none)
      | _ => (false, some Typ.id, none)
    let isValue := st.1
    let itemType := st.2.1
    let itemLangDir := st.2.2
    let commonLangDir :=
      if commonLangDir.isNone then itemLangDir
      else if isValue && commonLangDir ≠ itemLangDir then some (.val (none, none))
      else commonLangDir
    let commonType :=
      match commonType with
      | none => some itemType
      | some ct => if ct ≠ itemType then some none else some ct
    if commonLangDir = some (.val (none, none)) && commonType = some none then
      (commonType, commonLangDir)
    else listCommonFold rest commonType commonLangDir

/-- Lines 62-240 of `compact_iri_full`: the preferred-container list, the
type/language preference, and the `has_index` / simple-value flags. -/
def buildContainersTLV (ac : ActiveContext) (value : Option IndexedObj)
    (reverse : Bool) (opts : ProcessingOptions) :
    List Container × Option TypeLangValue × Bool :=
  let containers : List Container :=
    match value with
    | some v =>
      if v.2.isSome && !v.isGraph then [.index, .indexSet] else []
    | none => []
  let hasIndex :=
    match value with
    | some v => v.2.isSome
    | none => false
  let st :
      List Container × Option TypeLangValue × Bool :=
    if reverse then
      (containers ++ [.set], some (.type .reverse), false)
    else
      match value with
      | some ⟨.list list, idx⟩ =>
        let containers := containers ++ (if idx.isNone then [.list] else [])
        if list.isEmpty then
          -- the empty list sets only the common language-direction, which
          -- the selection step bypasses
          (containers, none, false)
        else
          let folded := listCommonFold list none none
          let commonType := folded.1.getD none
          let commonLangDir := folded.2.getD (.val (none, none))
          match commonType with
          | some ct => (containers, some (.type (.ty ct)), false)
          | none => (containers, some (.lang (.lang commonLangDir)), false)
      | some v =>
        match v.1 with
        | .node n =>
          if n.graph then
            let containers := containers ++
              (if hasIndex then [Container.graphIndex, .graphIndexSet] else []) ++
              (if n.id.isSome then [Container.graphId, .graphIdSet] else []) ++
              [.graph, .graphSet, .set] ++
              (if !hasIndex then [Container.graphIndex, .graphIndexSet] else []) ++
              (if n.id.isNone then [Container.graphId, .graphIdSet] else []) ++
              [.index, .indexSet]
            (containers, some (.type (.ty .id)), false)
          else
            (containers ++ [.id, .idSet, .type, .setType, .set],
             some (.type (.ty .id)), false)
        | .value lv =>
          if (lv.dir.isSome || lv.lang.isSome) && !hasIndex then
            (containers ++ [.language, .languageSet, .set],
             some (.lang (.lang (.val (lv.lang, lv.dir)))), false)
          else
            match lv.typ with
            | some ty => (containers ++ [.set], some (.type (.ty ty)), false)
            | none =>
              (containers ++ [.set], none,
               lv.dir.isNone && lv.lang.isNone && !hasIndex)
        | .list _ => (containers, none, false)
      | none =>
        (containers ++ [.id, .idSet, .type, .setType, .set],
         some (.type (.ty .id)), false)
  let containers := st.1
  let typeLangValue := st.2.1
  let isSimpleValue := st.2.2
  let containers := containers ++ [.noCont]
  let containers := containers ++
    (if opts.processingMode ≠ .jsonLd10 && !hasIndex then
      [Container.index, .indexSet] else [])
  let containers := containers ++
    (if opts.processingMode ≠ .jsonLd10 && isSimpleValue then
      [Container.language, .languageSet] else [])
  (containers, typeLangValue, hasIndex)

/-- Lines 349-387 of `compact_iri_full`: the walk over the term
definitions forming the best compact IRI (empty when none was formed). -/
def compactIriStep6 (ac : ActiveContext) (varStr : Str) (hasValue : Bool) : Str :=
  ac.definitions.foldl
    (fun compactIri kd =>
      match kd.2.value with
      | some iriMapping =>
        if kd.2.prefixFlag then
          let ms := iriMapping.asStr
          if ms.isPrefixOf varStr then
            let suffix := varStr.drop ms.length
            if !suffix.isEmpty then
              let candidate := kd.1 ++ ':' :: suffix
              let candidateDef := ac.get candidate
              let defMatchesVar :=
                match candidateDef with
                | some d =>
                  match d.value with
                  | some v => v.asStr = varStr
                  | none => false
                | none => false
              if (compactIri.isEmpty ||
                  (candidate.length ≤ compactIri.length && lexLt candidate compactIri)) &&
                 (candidateDef.isNone ||
                  (candidateDef.isSome && defMatchesVar && !hasValue)) then
                candidate
              else compactIri
            else compactIri
          else compactIri
        else compactIri
      | none => compactIri)
    []

/-- Lines 346-412 of `compact_iri_full`: the compact-IRI walk, the
IRI-confused-with-prefix check, and the relative / verbatim fallbacks. -/
def compactTail (ac : ActiveContext) (var : Lenient) (hasValue : Bool)
    (vocab : Bool) : PResult Json :=
  let compactIri := compactIriStep6 ac var.asStr hasValue
  if !compactIri.isEmpty then .ok (.str compactIri)
  else
    let schemeCheck : PResult Unit :=
      match var.asIri with
      | some iri =>
        match schemeOf iri with
        | some sc =>
          if ac.containsTerm sc then .err .iriConfusedWithPrefix else .ok ()
        | none => .ok ()
      | none => .ok ()
    PResult.bind schemeCheck fun _ =>
    if !vocab then
      match ac.baseIri with
      | some baseIri =>
        match var.asIri with
        | some iri => .ok (.str (relativeTo iri baseIri))
        | none => .ok (.str var.asStr)
      | none => .ok (.str var.asStr)
    else .ok (.str var.asStr)

/-- Body of `compact_iri_full` (lines 50-412 of `src/compaction/iri.rs`):
compact a term against an active context, optionally considering an
enclosing value. The recursive call of line 270 (the `@vocab`-preference
probe, made with no value) is abstracted as `probe`; the wrapper below
ties it, which is exact because the probe itself passes no value and so
never probes again. -/
def compactIriBody (probe : Lenient → PResult Json) (ac : ActiveContext)
    (var : Lenient) (value : Option IndexedObj) (vocab reverse : Bool)
    (opts : ProcessingOptions) : PResult Json :=
  if var = .ok .null then .ok .null
  else
    let vocabBlock : PResult (Option Json) :=
      if vocab then
        let selected : PResult (Option Json) :=
          match var with
          | .ok varT =>
            match alistGet (buildInverse ac) varT with
            | some entry =>
              let built := buildContainersTLV ac value reverse opts
              let containers := built.1
              let typeLangValue := built.2.1
              let isEmptyList :=
                match value with
                | some ⟨.list items, _⟩ => items.isEmpty
                | _ => false
              let selectionStep : PResult Selection :=
                if isEmptyList then .ok .any
                else
                  match typeLangValue with
                  | some (.type typeValue) =>
                    let base : List TypeSelection :=
                      if typeValue = .reverse then [.reverse] else []
                    let idStep : PResult (Bool × List TypeSelection) :=
                      match value with
                      | some v =>
                        match v.nodeId with
                        | some id =>
                          if typeValue = .ty .id || typeValue = .reverse then
                            let vocabPref : PResult Bool :=
                              match id with
                              | .ok idTerm =>
                                PResult.bind (probe (.ok idTerm))
                                  fun compacted =>
                                match compacted.asStr with
                                | some cs =>
                                  (match ac.get cs with
                                   | some d =>
                                     match d.value with
                                     | some iriMapping => .ok (iriMapping = idTerm)
                                     | none => .ok false
                                   | none => .ok false)
                                | none => .crashed
                              | .unknown _ => .ok false
                            PResult.bind vocabPref fun vp =>
                            if vp then
                              .ok (true, base ++ [.ty .vocab, .ty .id, .ty .noneTy])
                            else
                              .ok (true, base ++ [.ty .id, .ty .vocab, .ty .noneTy])
                          else .ok (false, base)
                        | none => .ok (false, base)
                      | none => .ok (false, base)
                    PResult.bind idStep fun hs =>
                    let hasIdType := hs.1
                    let sel := hs.2
                    let sel :=
                      if !hasIdType then sel ++ [typeValue, .ty .noneTy] else sel
                    .ok (.type (sel ++ [.any]))
                  | some (.lang langValue) =>
                    let sel : List LangSelection :=
                      [langValue, .lang (.val (none, none)), .any] ++
                      (match langValue with
                       | .lang (.val (some _, some dir)) => [.lang (.val (none, some dir))]
                       | _ => [])
                    .ok (.lang sel)
                  | none =>
                    .ok (.lang [.lang .nul, .lang (.val (none, none)), .any])
              PResult.bind selectionStep fun selection =>
              match entrySelect entry containers selection with
              | some term => .ok (some (.str term))
              | none => .ok none
            | none => .ok none
          | .unknown _ => .ok none
        PResult.bind selected fun sel =>
        match sel with
        | some j => .ok (some j)
        | none =>
          -- lines 330-343: the vocabulary-mapping suffix
          match ac.vocabulary with
          | some vocabMapping =>
            let vs := vocabMapping.asStr
            if vs.isPrefixOf var.asStr then
              let suffix := var.asStr.drop vs.length
              if !suffix.isEmpty && (ac.get suffix).isNone then
                .ok (some (.str suffix))
              else .ok none
            else .ok none
          | none => .ok none
      else .ok none
    PResult.bind vocabBlock fun vb =>
    match vb with
    | some j => .ok j
    | none => compactTail ac var value.isSome vocab

/-- `compact_iri_full`: the body with its probe tied to the no-value
instance of the body (whose own probe is unreachable). -/
def compact_iri_full (ac : ActiveContext) (var : Lenient)
    (value : Option IndexedObj) (vocab reverse : Bool)
    (opts : ProcessingOptions) : PResult Json :=
  compactIriBody
    (fun id => compactIriBody (fun _ => .crashed) ac id none true false opts)
    ac var value vocab reverse opts

/-- `compact_iri` (lines 36-38): compact with no value. -/
def compact_iri (ac : ActiveContext) (var : Lenient) (vocab reverse : Bool)
    (opts : ProcessingOptions) : PResult Json :=
  compact_iri_full ac var none vocab reverse opts

/-! ## Concrete fixtures for claim checking -/

/-- A loader with no documents. -/
def emptyLoader : Loader := fun _ => none

/-- A fresh active context with no base URL. -/
def emptyCtx : ActiveContext := ActiveContext.new none

/-- Project the definition of a term out of a processing result. -/
def resultGet (r : PResult ActiveContext) (t : Str) : Option (Option TermDefinition) :=
  match r with
  | .ok c => some (c.get t)
  | _ => none

/-- Project the base IRI out of a processing result. -/
def resultBase (r : PResult ActiveContext) : Option (Option Str) :=
  match r with
  | .ok c => some c.baseIri
  | _ => none

/-- Expand a string in the context produced by a processing run, using
`expand_iri` with an empty local context and `vocab = true`. -/
def expandInCtx (r : PResult ActiveContext) (v : Str) : Option Lenient :=
  match r with
  | .ok c =>
    match expand_iri 50 c v false true [] [] ⟨[]⟩ emptyLoader defaultOptions with
    | .ok t => some t.1
    | _ => none
  | _ => none

/-- Remote context URLs for the three-hop cycle X → Y → X. -/
def urlX : Str := str "http://x.test/ctx"
def urlY : Str := str "http://y.test/ctx"

/-- A loader where document X's `@context` is the URL Y and document Y's
`@context` is the URL X. -/
def cycleLoader : Loader := fun u =>
  if u = urlX then some (urlX, Json.str urlY)
  else if u = urlY then some (urlY, Json.str urlX)
  else none

/-- Processing a local context that is the URL X under `cycleLoader`. -/
def threeHopRun : PResult ActiveContext :=
  process_context 100 emptyCtx (Json.str urlX) ⟨[]⟩ cycleLoader none defaultOptions

/-- The local context of spec scenario 1. -/
def vocabNameLocal : Json :=
  Json.obj [(str "@vocab", Json.str (str "http://ex.com/")),
            (str "name", Json.str (str "ex:n"))]

def vocabNameRun : PResult ActiveContext :=
  process_context 100 emptyCtx vocabNameLocal ⟨[]⟩ emptyLoader none defaultOptions

/-- A protected definition of `name` mapping to `http://a`. -/
def protDef : TermDefinition :=
  { value := some (.iri (str "http://a")), protectedFlag := true }

def protCtx : ActiveContext := .mk [(str "name", protDef)] none none none none none none

def redefNameB : Json := Json.obj [(str "name", Json.str (str "http://b"))]

def redefNameEq : Json :=
  Json.obj [(str "name", Json.obj [(str "@id", Json.str (str "http://a")),
                                   (str "@protected", Json.bool false)])]

def redefNameRev : Json :=
  Json.obj [(str "name", Json.obj [(str "@reverse", Json.str (str "http://b"))])]

def protRedefRun : PResult ActiveContext :=
  process_context 100 protCtx redefNameB ⟨[]⟩ emptyLoader none defaultOptions

def protOverrideRun : PResult ActiveContext :=
  process_context 100 protCtx redefNameB ⟨[]⟩ emptyLoader none ⟨.jsonLd11, true, true⟩

def protEqualRun : PResult ActiveContext :=
  process_context 100 protCtx redefNameEq ⟨[]⟩ emptyLoader none defaultOptions

def protReverseRun : PResult ActiveContext :=
  process_context 100 protCtx redefNameRev ⟨[]⟩ emptyLoader none defaultOptions

/-- The definition installed by the `@reverse` redefinition of `name`. -/
def reverseDefB : TermDefinition :=
  { value := some (.iri (str "http://b")), reverseProperty := true }

/-- An unprotected definition of `t` mapping to `http://old/`. -/
def oldDef : TermDefinition := { value := some (.iri (str "http://old/")) }

def keptCtx : ActiveContext := .mk [(str "t", oldDef)] none none none none none none

def skipIdRun : PResult ActiveContext :=
  process_context 100 keptCtx
    (Json.obj [(str "t", Json.obj [(str "@id", Json.str (str "@foo"))])])
    ⟨[]⟩ emptyLoader none defaultOptions

def skipTermRun : PResult ActiveContext :=
  process_context 100 keptCtx
    (Json.obj [(str "@foo", Json.str (str "http://x/"))])
    ⟨[]⟩ emptyLoader none defaultOptions

def skipReverseRun : PResult ActiveContext :=
  process_context 100 keptCtx
    (Json.obj [(str "t", Json.obj [(str "@reverse", Json.str (str "@foo"))])])
    ⟨[]⟩ emptyLoader none defaultOptions

/-- The local context defining the prefix `a` and the term `a:b:` whose
`@id` differs from its compact-IRI expansion. -/
def boundaryLocal : Json :=
  Json.obj [(str "a", Json.str (str "http://a/")),
            (str "a:b:", Json.obj [(str "@id", Json.str (str "http://other/"))])]

def boundaryRun : PResult ActiveContext :=
  process_context 100 emptyCtx boundaryLocal ⟨[]⟩ emptyLoader none defaultOptions

/-- The definition `define` installs for `a:b:`. -/
def boundaryInstalled : TermDefinition := { value := some (.iri (str "http://other/")) }

/-- A context holding only the prefix definition `a ↦ http://a/`, as it
stands when `define` would re-expand the term `a:b:`. -/
def prefixACtx : ActiveContext :=
  .mk [(str "a", { value := some (.iri (str "http://a/")), prefixFlag := true })]
    none none none none none none

/-- A context whose base IRI is `http://e/`. -/
def relBaseCtx : ActiveContext := ActiveContext.new (some (str "http://e/"))

/-- A local context with a relative `@base`. -/
def relBaseLocal : Json := Json.obj [(str "@base", Json.str (str "sub/"))]

def relBaseOnce : PResult ActiveContext :=
  process_context 100 relBaseCtx relBaseLocal ⟨[]⟩ emptyLoader none defaultOptions

def relBaseTwice : PResult ActiveContext :=
  match relBaseOnce with
  | .ok c => process_context 100 c relBaseLocal ⟨[]⟩ emptyLoader none defaultOptions
  | _ => .crashed

/-- Prefix terms for the step-6 selection rule: `a` is iterated first and
maps to the shorter IRI, `z` maps to the longer one. -/
def shortRuleCtx : ActiveContext :=
  .mk [(str "a", { value := some (.iri (str "http://e/")), prefixFlag := true }),
       (str "z", { value := some (.iri (str "http://e/l/")), prefixFlag := true })]
    none none none none none none

/-- The context of spec scenario 5 (`a` before `b`). -/
def specRuleCtx : ActiveContext :=
  .mk [(str "a", { value := some (.iri (str "http://ex.com/long/")), prefixFlag := true }),
       (str "b", { value := some (.iri (str "http://ex.com/")), prefixFlag := true })]
    none none none none none none

/-- A context defining the term `http` with the prefix flag false. -/
def schemeTermCtx : ActiveContext :=
  .mk [(str "http", { value := some (.iri (str "http://h/x")), prefixFlag := false })]
    none none none none none none

/-- The context of spec scenario 6: `http` as a true prefix term. -/
def schemeTermCtx2 : ActiveContext :=
  .mk [(str "http", { value := some (.iri (str "http://ex.com/")), prefixFlag := true })]
    none none none none none none

/-- A context with one `@list`-container term mapping to `http://v/a:b`
and a vocabulary mapping `http://v/`. -/
def listTermCtx : ActiveContext :=
  .mk [(str "t", { value := some (.iri (str "http://v/a:b")), container := .list })]
    none none (some (.iri (str "http://v/"))) none none none

/-- A context with one plain term `t` mapping to `http://e/x`. -/
def roundtripCtx : ActiveContext :=
  .mk [(str "t", { value := some (.iri (str "http://e/x")) })] none none none none none none

/-- The terms stored in one entry's slots of the inverse context. -/
def SlotTerms (slots : InvSlots) (s : Str) : Prop :=
  s ∈ slots.typeMap.map Prod.snd ∨ s ∈ slots.langMap.map Prod.snd ∨
    slots.anySlot = some s

/-- Soundness of an inverse context for an active context: every term
reachable through the index is a definition whose IRI mapping is exactly
the indexed key. -/
def InvSound (c : ActiveContext) (inv : InverseContext) : Prop :=
  ∀ T entry, alistGet inv T = some entry →
    ∀ cont slots, alistGet entry cont = some slots →
      ∀ s, SlotTerms slots s →
        ∃ d, (s, d) ∈ c.definitions ∧ d.value = some T

/-! ## Support lemmas -/

theorem lookupAssoc_of_mem {α : Type} (l : List (Str × α)) (k : Str) (v : α)
    (hnd : (l.map Prod.fst).Nodup) (hm : (k, v) ∈ l) :
    lookupAssoc l k = some v := by
  induction l with
  | nil => cases hm
  | cons hd tl ih =>
    obtain ⟨k1, v1⟩ := hd
    rw [List.map_cons] at hnd
    have hnd' := List.nodup_cons.mp hnd
    rcases List.mem_cons.mp hm with h | h
    · cases h
      simp [lookupAssoc]
    · have hne : k1 ≠ k := by
        rintro rfl
        exact hnd'.1 (List.mem_map.mpr ⟨(k1, v), h, rfl⟩)
    
      simp only [lookupAssoc, if_neg hne]
      exact ih hnd'.2 h

theorem alistGet_mem {κ α : Type} [DecidableEq κ] (l : List (κ × α)) (k : κ)
    (v : α) (h : alistGet l k = some v) : (k, v) ∈ l := by
  induction l with
  | nil => simp [alistGet] at h
  | cons hd tl ih =>
    obtain ⟨k1, v1⟩ := hd
    by_cases he : k1 = k
    · subst he
      simp [alistGet] at h
      subst h
      exact List.mem_cons_self _ _
    · simp only [alistGet, if_neg he] at h
      exact List.mem_cons_of_mem _ (ih h)

theorem firstHit_some {α β : Type} (f : α → Option β) (l : List α) (b : β)
    (h : firstHit f l = some b) : ∃ x ∈ l, f x = some b := by
  induction l with
  | nil => simp [firstHit] at h
  | cons hd tl ih =>
    cases hf : f hd with
    | some b' =>
      have hb : b' = b := by
        simp [firstHit, hf] at h
        exact h
      exact ⟨hd, List.mem_cons_self _ _, by rw [hf, hb]⟩
    | none =>
      have h' : firstHit f tl = some b := by
        simpa [firstHit, hf] using h
      obtain ⟨x, hx, hfx⟩ := ih h'
      exact ⟨x, List.mem_cons_of_mem _ hx, hfx⟩

theorem alistGet_update_self {κ α : Type} [DecidableEq κ]
    (l : List (κ × α)) (k : κ) (init : α) (f : α → α) :
    alistGet (alistUpdate l k init f) k = some (f ((alistGet l k).getD init)) := by
  induction l with
  | nil => simp [alistUpdate, alistGet]
  | cons hd tl ih =>
    obtain ⟨k1, v1⟩ := hd
    by_cases he : k1 = k
    · subst he
      simp [alistUpdate, alistGet]
    · simp only [alistUpdate, if_neg he, alistGet, ih]

theorem alistGet_update_other {κ α : Type} [DecidableEq κ]
    (l : List (κ × α)) (k k' : κ) (init : α) (f : α → α) (hne : k' ≠ k) :
    alistGet (alistUpdate l k init f) k' = alistGet l k' := by
  have hne' : ¬(k = k') := fun h => hne h.symm
  induction l with
  | nil => simp [alistUpdate, alistGet, hne']
  | cons hd tl ih =>
    obtain ⟨k1, v1⟩ := hd
    by_cases he : k1 = k
    · subst he
      simp [alistUpdate, alistGet, hne']
    · by_cases he' : k1 = k'
      · subst he'
        simp [alistUpdate, alistGet, he]
      · simp [alistUpdate, alistGet, he, he', ih]

theorem insIfAbsent_snd_mem {κ : Type} [DecidableEq κ]
    (m : List (κ × Str)) (k : κ) (t s : Str)
    (h : s ∈ (insIfAbsent m k t).map Prod.snd) :
    s ∈ m.map Prod.snd ∨ s = t := by
  unfold insIfAbsent at h
  cases hg : alistGet m k with
  | some v => rw [hg] at h; exact Or.inl h
  | none =>
    rw [hg] at h
    rw [List.map_append] at h
    rcases List.mem_append.mp h with h | h
    · exact Or.inl h
    · simp at h
      exact Or.inr h

theorem invUpdateSlots_terms (k : Str) (d : TermDefinition) (dk : LangKey)
    (slots : InvSlots) (s : Str)
    (h : SlotTerms (invUpdateSlots k d dk slots) s) :
    SlotTerms slots s ∨ s = k := by
  unfold invUpdateSlots at h
  by_cases hr : d.reverseProperty
  · simp only [hr, if_pos] at h
    rcases h with h | h | h
    · rcases insIfAbsent_snd_mem _ _ _ _ h with h' | h'
      · exact Or.inl (Or.inl h')
      · exact Or.inr h'
    · exact Or.inl (Or.inr (Or.inl h))
    · exact Or.inl (Or.inr (Or.inr h))
  · simp only [hr, Bool.false_eq_true, if_false] at h
    cases ht : d.typ with
    | some t =>
      rw [ht] at h
      rcases h with h | h | h
      · rcases insIfAbsent_snd_mem _ _ _ _ h with h' | h'
        · exact Or.inl (Or.inl h')
        · exact Or.inr h'
      · exact Or.inl (Or.inr (Or.inl h))
      · exact Or.inl (Or.inr (Or.inr h))
    | none =>
      rw [ht] at h
      by_cases hl : d.language.isSome || d.direction.isSome
      · simp only [hl, if_pos] at h
        rcases h with h | h | h
        · exact Or.inl (Or.inl h)
        · rcases insIfAbsent_snd_mem _ _ _ _ h with h' | h'
          · exact Or.inl (Or.inr (Or.inl h'))
          · exact Or.inr h'
        · exact Or.inl (Or.inr (Or.inr h))
      · simp only [hl, Bool.false_eq_true, if_false] at h
        rcases h with h | h | h
        · rcases insIfAbsent_snd_mem _ _ _ _ h with h' | h'
          · exact Or.inl (Or.inl h')
          · exact Or.inr h'
        · rcases insIfAbsent_snd_mem _ _ _ _ h with h' | h'
          · rcases insIfAbsent_snd_mem _ _ _ _ h' with h'' | h''
            · exact Or.inl (Or.inr (Or.inl h''))
            · exact Or.inr h''
          · exact Or.inr h'
        · exact Or.inl (Or.inr (Or.inr h))

theorem selectInSlots_mem (slots : InvSlots) (sel : Selection) (s : Str)
    (h : selectInSlots slots sel = some s) : SlotTerms slots s := by
  cases sel with
  | any => exact Or.inr (Or.inr h)
  | type items =>
    obtain ⟨x, _, hfx⟩ := firstHit_some _ _ _ h
    cases x with
    | reverse =>
      exact Or.inl (List.mem_map.mpr ⟨(.reverse, s), alistGet_mem _ _ _ hfx, rfl⟩)
    | ty t =>
      exact Or.inl (List.mem_map.mpr ⟨(.ty t, s), alistGet_mem _ _ _ hfx, rfl⟩)
    | any => exact Or.inr (Or.inr hfx)
  | lang items =>
    obtain ⟨x, _, hfx⟩ := firstHit_some _ _ _ h
    cases x with
    | lang k =>
      exact Or.inr (Or.inl (List.mem_map.mpr ⟨(k, s), alistGet_mem _ _ _ hfx, rfl⟩))
    | any => exact Or.inr (Or.inr hfx)

theorem entrySelect_mem (entry : InvEntry) (containers : List Container)
    (sel : Selection) (s : Str) (h : entrySelect entry containers sel = some s) :
    ∃ cont slots, alistGet entry cont = some slots ∧ SlotTerms slots s := by
  induction containers with
  | nil => simp [entrySelect] at h
  | cons c rest ih =>
    rw [entrySelect] at h
    cases hg : alistGet entry c with
    | some slots =>
      simp only [hg] at h
      cases hs : selectInSlots slots sel with
      | some t =>
        simp only [hs, Option.some.injEq] at h
        subst h
        exact ⟨c, slots, hg, selectInSlots_mem _ _ _ hs⟩
      | none =>
        simp only [hs] at h
        exact ih h
    | none =>
      simp only [hg] at h
      exact ih h

theorem insertSorted_mem (x y : Str × TermDefinition)
    (l : List (Str × TermDefinition)) (h : x ∈ insertSorted y l) :
    x = y ∨ x ∈ l := by
  induction l with
  | nil =>
    rw [insertSorted] at h
    exact Or.inl (List.mem_singleton.mp h)
  | cons hd tl ih =>
    rw [insertSorted] at h
    by_cases hle : termLe y.1 hd.1
    · simp only [hle, if_pos] at h
      rcases List.mem_cons.mp h with h | h
      · exact Or.inl h
      · exact Or.inr h
    · simp only [hle, Bool.false_eq_true, if_false] at h
      rcases List.mem_cons.mp h with h | h
      · exact Or.inr (List.mem_cons.mpr (Or.inl h))
      · rcases ih h with h' | h'
        · exact Or.inl h'
        · exact Or.inr (List.mem_cons.mpr (Or.inr h'))

theorem sortDefs_mem (x : Str × TermDefinition) (l : List (Str × TermDefinition))
    (h : x ∈ sortDefs l) : x ∈ l := by
  induction l generalizing x with
  | nil => simp [sortDefs] at h
  | cons hd tl ih =>
    rw [sortDefs] at h
    rcases insertSorted_mem _ _ _ h with h' | h'
    · exact List.mem_cons.mpr (Or.inl h')
    · exact List.mem_cons.mpr (Or.inr (ih _ h'))

theorem buildStep_sound (c : ActiveContext) (dk : LangKey)
    (inv : InverseContext) (kd : Str × TermDefinition)
    (hkd : kd ∈ c.definitions) (hs : InvSound c inv) :
    InvSound c (buildStep dk inv kd) := by
  unfold buildStep
  cases hv : kd.2.value with
  | none => exact hs
  | some var =>
    intro T entry' hT cont slots hc s hslot
    by_cases hTv : T = var
    · subst hTv
      rw [alistGet_update_self] at hT
      injection hT with hT
      subst hT
      by_cases hcv : cont = kd.2.container
      · subst hcv
        rw [alistGet_update_self] at hc
        injection hc with hc
        subst hc
        rcases invUpdateSlots_terms _ _ _ _ _ hslot with hin | hk
        · -- the term was already in the slots before this step
          cases hent : alistGet inv T with
          | none =>
            rw [hent] at hin
            simp only [Option.getD_none, alistGet] at hin
            rcases hin with h | h | h
            · simp at h
            · simp at h
            · -- the freshly created entry holds only kd.1 in its any slot
              injection h with h
              subst h
              exact ⟨kd.2, hkd, hv⟩
          | some e0 =>
            rw [hent] at hin
            simp only [Option.getD_some] at hin
            cases hsl : alistGet e0 kd.2.container with
            | none =>
              rw [hsl] at hin
              simp only [Option.getD_none] at hin
              rcases hin with h | h | h
              · simp at h
              · simp at h
              · injection h with h
                subst h
                exact ⟨kd.2, hkd, hv⟩
            | some sl0 =>
              rw [hsl] at hin
              simp only [Option.getD_some] at hin
              exact hs T e0 hent _ sl0 hsl s hin
        · subst hk
          exact ⟨kd.2, hkd, hv⟩
      · rw [alistGet_update_other _ _ _ _ _ hcv] at hc
        cases hent : alistGet inv T with
        | none =>
          rw [hent] at hc
          simp [alistGet] at hc
        | some e0 =>
          rw [hent] at hc
          simp only [Option.getD_some] at hc
          exact hs T e0 hent cont slots hc s hslot
    · rw [alistGet_update_other _ _ _ _ _ hTv] at hT
      exact hs T entry' hT cont slots hc s hslot

theorem foldl_buildStep_sound (c : ActiveContext) (dk : LangKey)
    (l : List (Str × TermDefinition)) (inv : InverseContext)
    (hl : ∀ kd ∈ l, kd ∈ c.definitions) (hs : InvSound c inv) :
    InvSound c (l.foldl (buildStep dk) inv) := by
  induction l generalizing inv with
  | nil => exact hs
  | cons hd tl ih =>
    rw [List.foldl_cons]
    exact ih _ (fun kd hkd => hl kd (List.mem_cons_of_mem _ hkd))
      (buildStep_sound c dk inv hd (hl hd (List.mem_cons_self _ _)) hs)

theorem buildInverse_sound (c : ActiveContext) : InvSound c (buildInverse c) := by
  unfold buildInverse
  apply foldl_buildStep_sound
  · exact fun kd hkd => sortDefs_mem _ _ hkd
  · intro T entry hT
    simp [alistGet] at hT

theorem isKeywordLike_of_isKeyword (s : Str) (h : isKeyword s = true) :
    isKeywordLike s = true := by
  have hmem : s ∈ keywordStrings := by
    have := h
    unfold isKeyword at this
    exact List.elem_iff.mp this
  fin_cases hmem <;> decide

/-- C5 (amended): whenever the inverse-context selection used by step 2 of
IRI compaction returns a term `s` for a Term `T` (in an active context with
distinct, non-keyword-like term names), the selected term's definition maps
exactly to `T`, and IRI-expanding `s` with `vocab = true` in the same
context yields `T` again. -/
theorem C5_roundtrip_selection (c : ActiveContext) (T : Term) (entry : InvEntry)
    (containers : List Container) (sel : Selection) (s : Str)
    (hnd : (c.definitions.map Prod.fst).Nodup)
    (hkw : ∀ k ∈ c.definitions.map Prod.fst, isKeywordLike k = false)
    (hinv : alistGet (buildInverse c) T = some entry)
    (hsel : entrySelect entry containers sel = some s) :
    syncExpandIri c s false true = .ok T := by
  obtain ⟨cont, slots, hget, hterms⟩ := entrySelect_mem _ _ _ _ hsel
  obtain ⟨d, hmem, hval⟩ := buildInverse_sound c T entry hinv cont slots hget s hterms
  have hk : isKeywordLike s = false := hkw s (List.mem_map.mpr ⟨(s, d), hmem, rfl⟩)
  have hkw2 : isKeyword s = false := by
    cases hik : isKeyword s
    · rfl
    · rw [isKeywordLike_of_isKeyword s hik] at hk
      cases hk
  have hgets : c.get s = some d := lookupAssoc_of_mem _ _ _ hnd hmem
  rw [syncExpandIri]
  simp only [hkw2, hk, Bool.false_eq_true, if_false, hgets, hval]
  cases hK : T.isKw <;> simp [hK]

/-- Witness for C5 (amended): in `roundtripCtx` the selection picks `t`
for `http://e/x`, and expanding `t` gives back `http://e/x`. -/
theorem C5_roundtrip_selection_witness :
    syncExpandIri roundtripCtx (str "t") false true =
      .ok (.iri (str "http://e/x")) :=
  C5_roundtrip_selection roundtripCtx (.iri (str "http://e/x"))
    [(Container.noCont,
      ⟨[(.ty .noneTy, str "t")], [(.val (none, none), str "t")], some (str "t")⟩)]
    [.id, .idSet, .type, .setType, .set, .noCont, .index, .indexSet]
    (.type [.ty .id, .ty .noneTy, .any]) (str "t")
    (by decide) (by decide) rfl rfl

/-! ## Claim theorems -/

/-- C9: `ProcessingStack::push` returns false exactly when the URL is
already in the stack; a failed push leaves the stack unchanged and a
successful push adds the URL at the head without reordering or removing
the existing parent frames. -/
theorem C9_push_spec (s : ProcessingStack) (u : Str) :
    ((s.push u).1 = false ↔ u ∈ s.frames) ∧
    (s.push u).2.frames = (if u ∈ s.frames then s.frames else u :: s.frames) := by
  have hc : s.cycle u = true ↔ u ∈ s.frames := by
    simp [ProcessingStack.cycle, List.contains, List.elem_iff]
  by_cases hm : u ∈ s.frames
  · have ht : s.cycle u = true := hc.mpr hm
    simp [ProcessingStack.push, ht, hm]
  · have hf : s.cycle u = false := by
      cases h : s.cycle u
      · rfl
      · exact absurd (hc.mp h) hm
    simp [ProcessingStack.push, hf, hm]

/-- C1 (counterexample): the three-hop remote-context cycle X → Y → X is
processed successfully; no `recursive-context-inclusion` error is raised
(the duplicate push is skipped silently). -/
theorem C1_counterexample :
    threeHopRun = .ok emptyCtx ∧
    threeHopRun ≠ .err .recursiveContextInclusion := by
  refine ⟨rfl, ?_⟩
  intro h
  rw [show threeHopRun = .ok emptyCtx from rfl] at h
  cases h

/-- C1 (amended): the duplicate push of X (the second time it is reached,
with Y and X already on the stack) returns false, and the whole three-hop
cycle completes without any error: the recursive inclusion is silently
skipped rather than fatal. -/
theorem C1_cycle_silently_skipped :
    (ProcessingStack.push ⟨[urlY, urlX]⟩ urlX).1 = false ∧
    threeHopRun = .ok emptyCtx :=
  ⟨rfl, rfl⟩

/-- C2: on the walk of step 6, a strictly shorter candidate that is
lexicographically greater than the current best does not replace it (the
code requires `len ≤ ∧ lex <`, while its own comment and the claim make
strictly-shorter suffice): compacting `http://e/l/x` against `a ↦
http://e/` (iterated first) and `z ↦ http://e/l/` keeps `a:l/x` even
though `z:x` is shorter. The claim's own scenario (`a:x` against
`b:long/x`) does hold. -/
theorem C2_short_candidate_lost :
    compact_iri_full shortRuleCtx (.ok (.iri (str "http://e/l/x"))) none false
      false defaultOptions = .ok (.str (str "a:l/x")) ∧
    (str "z:x").length < (str "a:l/x").length ∧
    compact_iri_full specRuleCtx (.ok (.iri (str "http://ex.com/long/x"))) none
      false false defaultOptions = .ok (.str (str "a:x")) :=
  ⟨rfl, by decide, rfl⟩

/-- C3: `IRI-confused-with-prefix` is raised whenever the scheme matches
any defined term, even one whose prefix flag is false — against the claim
(and the code's own comment), which require `prefix = true`. The claim's
positive scenario (a true prefix term `http`) raises the error as well. -/
theorem C3_scheme_check_ignores_flag :
    compact_iri_full schemeTermCtx (.ok (.iri (str "http://example.org/"))) none
      false false defaultOptions = .err .iriConfusedWithPrefix ∧
    (schemeTermCtx.get (str "http")).map (fun d => d.prefixFlag) = some false ∧
    compact_iri_full schemeTermCtx2 (.ok (.iri (str "http://example.org/"))) none
      false false defaultOptions = .err .iriConfusedWithPrefix :=
  ⟨rfl, rfl, rfl⟩

/-- C4 (counterexample): a redefinition of the protected term `name`
through the `@reverse` branch succeeds with `override_protected = false`
and silently replaces the definition with one that is not structurally
equal (modulo `protected`) to the old one. -/
theorem C4_counterexample :
    protCtx.get (str "name") = some protDef ∧
    protDef.protectedFlag = true ∧
    resultGet protReverseRun (str "name") = some (some reverseDefB) ∧
    eqModProtected reverseDefB protDef = false :=
  ⟨rfl, rfl, rfl, rfl⟩

/-- C4 (amended): redefinitions that reach the final install step respect
protection — `name ↦ http://b` with `override_protected = false` fails
with `protected-term-redefinition`, the structurally equal redefinition
succeeds with `protected` forced back to true, and `override_protected =
true` succeeds and replaces — but the `@reverse` branch installs before
the protection check and replaces the protected definition without
error. -/
theorem C4_protected_discipline :
    protRedefRun = .err .protectedTermRedefinition ∧
    resultGet protOverrideRun (str "name") =
      some (some { value := some (.iri (str "http://b")) }) ∧
    resultGet protEqualRun (str "name") = some (some protDef) ∧
    resultGet protReverseRun (str "name") = some (some reverseDefB) :=
  ⟨rfl, rfl, rfl, rfl⟩

/-- C6 (counterexample): after processing the local context of spec
scenario 1, expanding `name` with `vocab = true` yields the IRI `ex:n`
(the `@id` value is itself a valid absolute IRI, so step f returns it),
not `http://ex.com/n` as the claim states. -/
theorem C6_counterexample :
    expandInCtx vocabNameRun (str "name") = some (.ok (.iri (str "ex:n"))) ∧
    str "ex:n" ≠ str "http://ex.com/n" :=
  ⟨rfl, by decide⟩

/-- C6 (amended): with `ex` undefined, the term definition of `name`
stores `ex:n` verbatim (it parses as an absolute IRI), so expanding
`name` with `vocab = true` yields `ex:n`; expanding `other` concatenates
the vocabulary mapping and yields `http://ex.com/other`. -/
theorem C6_vocab_mapping :
    expandInCtx vocabNameRun (str "name") = some (.ok (.iri (str "ex:n"))) ∧
    expandInCtx vocabNameRun (str "other") =
      some (.ok (.iri (str "http://ex.com/other"))) :=
  ⟨rfl, rfl⟩

/-- C7 (counterexample): processing the local context with the relative
`@base` entry `sub/` once moves the base IRI to `http://e/sub/`, and
processing it a second time against that result moves it again to
`http://e/sub/sub/` — context processing is not idempotent. -/
theorem C7_counterexample :
    resultBase relBaseOnce = some (some (str "http://e/sub/")) ∧
    resultBase relBaseTwice = some (some (str "http://e/sub/sub/")) ∧
    str "http://e/sub/" ≠ str "http://e/sub/sub/" :=
  ⟨rfl, rfl, by decide⟩

/-- C8: `contains_between_boundaries` misses the interior colon of
`a:b:` (its last occurrence being final makes the test fail), so the
re-expansion equality check of Create Term Definition is skipped and the
definition `a:b: ↦ http://other/` is installed, even though re-expanding
`a:b:` through the prefix `a` yields `http://a/b:` ≠ `http://other/`
and the claim (and the function's own comment) demand
`invalid-IRI-mapping`. -/
theorem C8_boundary_check_skipped :
    contains_between_boundaries (str "a:b:") ':' = false ∧
    resultGet boundaryRun (str "a:b:") = some (some boundaryInstalled) ∧
    expandInCtx (.ok prefixACtx) (str "a:b:") =
      some (.ok (.iri (str "http://a/b:"))) ∧
    str "http://a/b:" ≠ str "http://other/" :=
  ⟨rfl, rfl, rfl, by decide⟩

/-- C10 (counterexample): skipping the definition of `t` because its
`@id` value `@foo` is keyword-like returns success, but the previous
definition of `t` was already removed and is gone afterwards. -/
theorem C10_counterexample :
    keptCtx.get (str "t") = some oldDef ∧
    resultGet skipIdRun (str "t") = some none :=
  ⟨rfl, rfl⟩

/-- C10 (amended): the keyword-like skips return success; a keyword-like
term name is skipped before the previous definition is removed, so the
entry survives, but the keyword-like `@id` and `@reverse` value skips
happen after the removal, so the term ends up with no definition. -/
theorem C10_skip_effects :
    resultGet skipTermRun (str "t") = some (some oldDef) ∧
    resultGet skipIdRun (str "t") = some none ∧
    resultGet skipReverseRun (str "t") = some none :=
  ⟨rfl, rfl, rfl⟩

/-- C5 (counterexample): the Term `http://v/a:b` has an entry in the
inverse context of `listTermCtx` (under the `@list` container), but the
selection misses, compaction falls back to the vocabulary suffix `a:b`,
and re-expanding `a:b` with `vocab = true` yields the IRI `a:b`, not the
original Term. -/
theorem C5_counterexample :
    (alistGet (buildInverse listTermCtx) (.iri (str "http://v/a:b"))).isSome = true ∧
    compact_iri_full listTermCtx (.ok (.iri (str "http://v/a:b"))) none true
      false defaultOptions = .ok (.str (str "a:b")) ∧
    expandInCtx (.ok listTermCtx) (str "a:b") = some (.ok (.iri (str "a:b"))) ∧
    Term.iri (str "a:b") ≠ Term.iri (str "http://v/a:b") :=
  ⟨rfl, rfl, rfl, by decide⟩

theorem defineLoop_nil (fuel : Nat) (r : ActiveContext) (o : List (Str × Json))
    (dfn : List (Str × Bool)) (st : ProcessingStack) (ld : Loader)
    (b : Option Str) (p : Bool) (opts : ProcessingOptions) :
    defineLoop fuel r o [] dfn st ld b p opts = .ok r := by
  cases fuel <;> rfl

theorem processEntries_nil (fuel : Nat) (a r : ActiveContext)
    (st : ProcessingStack) (ld : Loader) (b : Option Str)
    (opts : ProcessingOptions) :
    processEntries fuel a r [] st ld b opts = .ok r := by
  cases fuel <;> rfl

theorem defineLoop_base (m : Nat) (r : ActiveContext) (v : Json)
    (dfn : List (Str × Bool)) (ld : Loader) :
    defineLoop (m+1) r [(str "@base", v)] [str "@base"] dfn ⟨[]⟩ ld none false
      defaultOptions = .ok r := by
  have e : defineLoop (m+1) r [(str "@base", v)] [str "@base"] dfn ⟨[]⟩ ld none
      false defaultOptions =
      defineLoop m r [(str "@base", v)] [] dfn ⟨[]⟩ ld none false
        defaultOptions := rfl
  rw [e, defineLoop_nil]

theorem setBaseIri_twice (c : ActiveContext) (x y : Option Str) :
    (c.setBaseIri x).setBaseIri y = c.setBaseIri y := by
  cases c
  rfl

/-- Processing a local context holding only `@base: null` replaces the
base IRI by nothing and changes nothing else. -/
theorem base_run_null (n : Nat) (c : ActiveContext) (loader : Loader) :
    process_context (n+4) c (Json.obj [(str "@base", Json.null)]) ⟨[]⟩ loader
      none defaultOptions = .ok (c.setBaseIri none) := by
  have e1 : process_context (n+4) c (Json.obj [(str "@base", Json.null)]) ⟨[]⟩
      loader none defaultOptions =
      PResult.bind
        (defineLoop (n+1) (c.setBaseIri none) [(str "@base", Json.null)]
          [str "@base"] [] ⟨[]⟩ loader none false defaultOptions)
        (fun result =>
          processEntries (n+2) c result [] ⟨[]⟩ loader none defaultOptions) := rfl
  rw [e1, defineLoop_base]
  exact processEntries_nil _ _ _ _ _ _ _

/-- Processing a local context holding only `@base: s` for an absolute
IRI `s` sets the base IRI to `s` and changes nothing else. -/
theorem base_run_str (n : Nat) (c : ActiveContext) (loader : Loader) (s : Str)
    (h1 : isIriRef s = true) (h2 : isAbsoluteIri s = true) :
    process_context (n+4) c (Json.obj [(str "@base", Json.str s)]) ⟨[]⟩ loader
      none defaultOptions = .ok (c.setBaseIri (some s)) := by
  have e1 : process_context (n+4) c (Json.obj [(str "@base", Json.str s)]) ⟨[]⟩
      loader none defaultOptions =
      PResult.bind
        (processMapEntry (n+2) c [(str "@base", Json.str s)] ⟨[]⟩ loader none
          defaultOptions)
        (fun result =>
          processEntries (n+2) c result [] ⟨[]⟩ loader none defaultOptions) := rfl
  have e2 : processMapEntry (n+2) c [(str "@base", Json.str s)] ⟨[]⟩ loader none
      defaultOptions =
      PResult.bind
        (if isIriRef s then
          (if isAbsoluteIri s then .ok (c.setBaseIri (some s))
           else
            match resolve_iri s c.baseIri with
            | some resolved => .ok (c.setBaseIri (some resolved))
            | none => .err .invalidBaseIri)
         else .err .invalidBaseIri)
        (fun result =>
          defineLoop (n+1) result [(str "@base", Json.str s)] [str "@base"] []
            ⟨[]⟩ loader none false defaultOptions) := rfl
  rw [e1, e2, h1, h2]
  simp only [if_true]
  rw [show PResult.bind (PResult.ok (c.setBaseIri (some s)))
      (fun result =>
        defineLoop (n+1) result [(str "@base", Json.str s)] [str "@base"] []
          ⟨[]⟩ loader none false defaultOptions) =
      defineLoop (n+1) (c.setBaseIri (some s)) [(str "@base", Json.str s)]
        [str "@base"] [] ⟨[]⟩ loader none false defaultOptions from rfl]
  rw [defineLoop_base]
  exact processEntries_nil _ _ _ _ _ _ _

/-- C7 (amended): context processing is not idempotent in general — a
relative `@base` resolves against the evolving base IRI — but processing
a map local context holding a single `@base` entry whose value is null
or an absolute IRI reference is idempotent: re-processing the result
(at top level, with default options and sufficient fuel) returns it
unchanged. -/
theorem C7_base_idempotent (fuel : Nat) (c c1 : ActiveContext) (v : Json)
    (loader : Loader)
    (hv : v = Json.null ∨
      ∃ s, v = Json.str s ∧ isIriRef s = true ∧ isAbsoluteIri s = true)
    (hrun : process_context (fuel+4) c (Json.obj [(str "@base", v)]) ⟨[]⟩
      loader none defaultOptions = .ok c1) :
    process_context (fuel+4) c1 (Json.obj [(str "@base", v)]) ⟨[]⟩ loader none
      defaultOptions = .ok c1 := by
  rcases hv with rfl | ⟨s, rfl, h1, h2⟩
  · rw [base_run_null] at hrun
    injection hrun with h
    subst h
    rw [base_run_null, setBaseIri_twice]
  · rw [base_run_str fuel c loader s h1 h2] at hrun
    injection hrun with h
    subst h
    rw [base_run_str fuel _ loader s h1 h2, setBaseIri_twice]

/-- Witness for C7 (amended): re-processing the result of an absolute
`@base` context returns it unchanged. -/
theorem C7_base_idempotent_witness :
    process_context 10
      (ActiveContext.mk [] (some (str "http://b/")) none none none none none)
      (Json.obj [(str "@base", Json.str (str "http://b/"))]) ⟨[]⟩ emptyLoader
      none defaultOptions =
      .ok (ActiveContext.mk [] (some (str "http://b/")) none none none none none) :=
  C7_base_idempotent 6 (ActiveContext.new none) _ _ emptyLoader
    (Or.inr ⟨str "http://b/", rfl, rfl, rfl⟩) rfl
